import Mathlib

/-!
# excel-processor: the column transformer of `main.go`

A shallow embedding of `src/excel-processor/main.go`.

* Text is a sequence of Unicode code points (`String`).
* The Go standard library and the `excelize` library are not part of the
  repository.  What they return is taken as a parameter: the case mapping of
  non-ASCII code points, the path separator test, the integer scan of the
  `--column` flag, every file-system call and every spreadsheet call.
* Go `int` values are `Int`; an index expression that would panic is `none`.
* A run of a handler is recorded as the error it returns together with the
  calls it has made on the output side (cell writes, save, create, record
  writes).
-/

namespace ExcelProcessor

/-! ## Text helpers from the Go standard library -/

/-- Go `unicode.ToUpper`: the ASCII range is computed, any other code point
is looked up in the case table `upper`. -/
def unicodeToUpper (upper : Char → Char) (r : Char) : Char :=
  if r.toNat ≤ 127 then
    if 97 ≤ r.toNat ∧ r.toNat ≤ 122 then Char.ofNat (r.toNat - 32) else r
  else upper r

/-- Go `unicode.ToLower`, with the case table `lower` for non-ASCII. -/
def unicodeToLower (lower : Char → Char) (r : Char) : Char :=
  if r.toNat ≤ 127 then
    if 65 ≤ r.toNat ∧ r.toNat ≤ 90 then Char.ofNat (r.toNat + 32) else r
  else lower r

/-- Go `strings.ToUpper`: `unicode.ToUpper` mapped over the code points. -/
def stringsToUpper (upper : Char → Char) (s : String) : String :=
  ⟨s.data.map (unicodeToUpper upper)⟩

/-- Go `strings.ToLower`. -/
def stringsToLower (lower : Char → Char) (s : String) : String :=
  ⟨s.data.map (unicodeToLower lower)⟩

/-- Scan of `filepath.Ext` from the last character backwards: `rev` holds the
characters still to visit (last first), `acc` the suffix already passed. -/
def extScan (isPathSeparator : Char → Bool) : List Char → List Char → String
  | [], _ => ""
  | c :: rev, acc =>
    if isPathSeparator c then ""
    else if c = '.' then ⟨c :: acc⟩
    else extScan isPathSeparator rev (c :: acc)

/-- Go `filepath.Ext`: the suffix starting at the last dot of the last path
element, empty when that element has no dot. -/
def filepathExt (isPathSeparator : Char → Bool) (path : String) : String :=
  extScan isPathSeparator path.data.reverse []

/-- Go slice indexing `xs[i]` with an `int` index; `none` is the run-time
panic on an index out of range. -/
def goIndex {α : Type} (xs : List α) (i : Int) : Option α :=
  if i < 0 then none else xs[i.toNat]?

/-- Go slice assignment `xs[i] = v`; `none` is the run-time panic. -/
def goSet {α : Type} (xs : List α) (i : Int) (v : α) : Option (List α) :=
  if i < 0 then none
  else if i.toNat < xs.length then some (xs.set i.toNat v) else none

/-! ## `processString` -/

/-- The transformation `processString` of `main.go`. -/
def processString (upper : Char → Char) (input : String) : String :=
  stringsToUpper upper input ++ "_PROCESSED"

/-! ## The delimited-text handler -/

/-- Body of the record loop of `processCSVFile` for one data record. -/
def processRecord (upper : Char → Char) (columnIndex : Int)
    (record : List String) : Option (List String) :=
  if (record.length : Int) ≤ columnIndex then some record
  else
    match goIndex record columnIndex with
    | none => none
    | some cellValue =>
      let processedValue := processString upper cellValue
      if columnIndex + 1 ≥ (record.length : Int) then
        some (record ++ [processedValue])
      else goSet record (columnIndex + 1) processedValue

/-- The record loop over the data records `records[1..]`. -/
def processDataRecords (upper : Char → Char) (columnIndex : Int) :
    List (List String) → Option (List (List String))
  | [] => some []
  | record :: rest =>
    match processRecord upper columnIndex record with
    | none => none
    | some record1 =>
      match processDataRecords upper columnIndex rest with
      | none => none
      | some rest1 => some (record1 :: rest1)

/-- The loop `for i := 1; i < len(records); i++` of `processCSVFile`:
record 0 is not visited. -/
def transformRecords (upper : Char → Char) (columnIndex : Int) :
    List (List String) → Option (List (List String))
  | [] => some []
  | header :: data =>
    match processDataRecords upper columnIndex data with
    | none => none
    | some data1 => some (header :: data1)

/-- Errors returned by `processCSVFile`; `panic` is a run-time panic. -/
inductive CsvError where
  | openFile (cause : String)
  | read (cause : String)
  | emptyFile
  | outOfBounds (columnIndex : Int)
  | createOutput (cause : String)
  | write (cause : String)
  | panic
  deriving DecidableEq

/-- What the file system and the CSV library answer during one run. -/
structure CsvFiles where
  /-- Error of `os.Open` on the input path, if any. -/
  openInput : String → Option String
  /-- Successive results of `reader.Read()` before end of file. -/
  reads : List (Except String (List String))
  /-- Error of `os.Create` on the output path, if any. -/
  createOutput : String → Option String
  /-- Error of `writer.Write` for a record, if any. -/
  writeRecord : List String → Option String

/-- A run of `processCSVFile`: the error returned, whether `os.Create` was
called on the output path, and the records handed to `writer.Write`. -/
structure CsvRun where
  err : Option CsvError
  createCalled : Bool
  written : List (List String)
  deriving DecidableEq

/-- The read loop of `processCSVFile`: collect records until end of file,
stop at the first read error. -/
def readRecords : List (Except String (List String)) → Except String (List (List String))
  | [] => .ok []
  | .error e :: _ => .error e
  | .ok record :: rest =>
    match readRecords rest with
    | .error e => .error e
    | .ok records => .ok (record :: records)

/-- The write loop of `processCSVFile`: the records handed to the writer and
the first write error. -/
def writeRecords (writeRecord : List String → Option String) :
    List (List String) → List (List String) × Option CsvError
  | [] => ([], none)
  | record :: rest =>
    match writeRecord record with
    | some e => ([record], some (.write e))
    | none =>
      let r := writeRecords writeRecord rest
      (record :: r.1, r.2)

/-- Field count of record 0 (`len(records[0])`). -/
def headerWidth (records : List (List String)) : Int :=
  ((records.headD []).length : Int)

/-- The handler `processCSVFile`. -/
def processCSVFile (upper : Char → Char) (fs : CsvFiles)
    (inputPath outputPath : String) (columnIndex : Int) : CsvRun :=
  match fs.openInput inputPath with
  | some e => ⟨some (.openFile e), false, []⟩
  | none =>
    match readRecords fs.reads with
    | .error e => ⟨some (.read e), false, []⟩
    | .ok records =>
      if records.length = 0 then ⟨some .emptyFile, false, []⟩
      else if columnIndex < 0 ∨ columnIndex ≥ headerWidth records then
        ⟨some (.outOfBounds columnIndex), false, []⟩
      else
        match transformRecords upper columnIndex records with
        | none => ⟨some .panic, false, []⟩
        | some records1 =>
          match fs.createOutput outputPath with
          | some e => ⟨some (.createOutput e), true, []⟩
          | none =>
            let w := writeRecords fs.writeRecord records1
            ⟨w.2, true, w.1⟩

/-! ## The spreadsheet handler -/

/-- Errors returned by `processExcelFile`; `panic` is a run-time panic. -/
inductive ExcelError where
  | openFile (cause : String)
  | noSheets
  | readSheet (cause : String)
  | emptySheet
  | columnNotFound (columnName : String)
  | cellAddress (cause : String)
  | setCell (cause : String)
  | save (cause : String)
  | panic
  deriving DecidableEq

/-- What the `excelize` library answers during one run. -/
structure Excelize where
  /-- Error of `excelize.OpenFile` on the input path, if any. -/
  openFile : String → Option String
  /-- Result of `f.GetSheetList()`. -/
  sheetList : List String
  /-- Result of `f.GetRows(sheet)`. -/
  getRows : String → Except String (List (List String))
  /-- Result of `excelize.CoordinatesToCellName(col, row)`. -/
  coordinatesToCellName : Int → Int → Except String String
  /-- Error of `f.SetCellValue(sheet, cell, value)`, if any. -/
  setCellValue : String → String → String → Option String
  /-- Error of `f.SaveAs(path)`, if any. -/
  saveAs : String → Option String

/-- One call of `f.SetCellValue`: the 1-based coordinates the cell name was
computed from, the cell name, and the value. -/
structure CellWrite where
  col : Int
  row : Int
  cell : String
  value : String
  deriving DecidableEq

/-- A run of `processExcelFile`: the error returned, the cell writes issued
in order, and whether `f.SaveAs` was called. -/
structure ExcelRun where
  err : Option ExcelError
  writes : List CellWrite
  saveCalled : Bool
  deriving DecidableEq

/-- The header scan of `processExcelFile`: `i` is the position of the first
cell of `cells`; the result is `-1` when no cell equals the name. -/
def findColumnIndex (columnName : String) : Nat → List String → Int
  | _, [] => -1
  | i, cell :: cells =>
    if cell = columnName then (i : Int)
    else findColumnIndex columnName (i + 1) cells

/-- The row loop of `processExcelFile` from row position `i` on: the cell
writes issued and the error that stopped the loop, if any. -/
def processRows (upper : Char → Char) (lib : Excelize) (sheetName : String)
    (columnIndex : Int) : Nat → List (List String) → List CellWrite × Option ExcelError
  | _, [] => ([], none)
  | i, row :: rows =>
    if (row.length : Int) ≤ columnIndex then
      processRows upper lib sheetName columnIndex (i + 1) rows
    else
      match goIndex row columnIndex with
      | none => ([], some .panic)
      | some cellValue =>
        let processedValue := processString upper cellValue
        let rowNum : Int := (i : Int) + 1
        match lib.coordinatesToCellName (columnIndex + 2) rowNum with
        | .error e => ([], some (.cellAddress e))
        | .ok cellAddr =>
          let w : CellWrite := ⟨columnIndex + 2, rowNum, cellAddr, processedValue⟩
          match lib.setCellValue sheetName cellAddr processedValue with
          | some e => ([w], some (.setCell e))
          | none =>
            let r := processRows upper lib sheetName columnIndex (i + 1) rows
            (w :: r.1, r.2)

/-- The handler `processExcelFile`. -/
def processExcelFile (upper : Char → Char) (lib : Excelize)
    (inputPath outputPath columnName : String) : ExcelRun :=
  match lib.openFile inputPath with
  | some e => ⟨some (.openFile e), [], false⟩
  | none =>
    match lib.sheetList with
    | [] => ⟨some .noSheets, [], false⟩
    | sheetName :: _ =>
      match lib.getRows sheetName with
      | .error e => ⟨some (.readSheet e), [], false⟩
      | .ok [] => ⟨some .emptySheet, [], false⟩
      | .ok (header :: dataRows) =>
        let columnIndex := findColumnIndex columnName 0 header
        if columnIndex = -1 then ⟨some (.columnNotFound columnName), [], false⟩
        else
          let r := processRows upper lib sheetName columnIndex 1 dataRows
          match r.2 with
          | some e => ⟨some e, r.1, false⟩
          | none =>
            match lib.saveAs outputPath with
            | some e => ⟨some (.save e), r.1, true⟩
            | none => ⟨none, r.1, true⟩

/-! ## `main` -/

/-- Everything outside the program that a run of `main` consults. -/
structure World where
  /-- Upper-case table of `unicode.ToUpper` for non-ASCII code points. -/
  upper : Char → Char
  /-- Lower-case table of `unicode.ToLower` for non-ASCII code points. -/
  lower : Char → Char
  /-- Go `os.IsPathSeparator`. -/
  isPathSeparator : Char → Bool
  /-- Result of `fmt.Sscanf(column, "%d", &columnIndex)`. -/
  scanInt : String → Except String Int
  /-- The spreadsheet library. -/
  excel : Excelize
  /-- The file system and CSV library. -/
  files : CsvFiles

/-- How a run of `main` ends. -/
inductive MainOutcome where
  /-- A flag is empty: usage is printed, nothing is processed. -/
  | missingParameters
  /-- The `.xlsx` case: `processExcelFile` was called, with this run. -/
  | excel (run : ExcelRun)
  /-- The `.csv` case, the column is not an integer: no handler is called. -/
  | csvColumnNotNumeric (cause : String)
  /-- The `.csv` case: `processCSVFile` was called, with this run. -/
  | csv (run : CsvRun)
  /-- The default case: "Unsupported file format", no handler is called. -/
  | unsupported (ext : String)
  deriving DecidableEq

/-- The function `main`, on the values of the three flags. -/
def main (w : World) (inputFile outputFile column : String) : MainOutcome :=
  if inputFile = "" ∨ outputFile = "" ∨ column = "" then .missingParameters
  else
    let ext := stringsToLower w.lower (filepathExt w.isPathSeparator inputFile)
    if ext = ".xlsx" then
      .excel (processExcelFile w.upper w.excel inputFile outputFile column)
    else if ext = ".csv" then
      match w.scanInt column with
      | .error e => .csvColumnNotNumeric e
      | .ok columnIndex =>
        .csv (processCSVFile w.upper w.files inputFile outputFile columnIndex)
    else .unsupported ext

/-! ## Specification-side definitions and sample inputs -/

/-- The record mapping of the delimited-text handler in the words of the
specification: a short record is kept, a record of exactly `k + 1` fields gets
the transformed value appended, a longer one has field `k + 1` overwritten. -/
def recordSpec (upper : Char → Char) (k : Nat) (r : List String) : List String :=
  if r.length < k + 1 then r
  else if r.length = k + 1 then r ++ [processString upper (r.getD k "")]
  else r.set (k + 1) (processString upper (r.getD k ""))

/-- A case table that leaves every code point alone; it is never consulted on
ASCII text. -/
def plainTable : Char → Char := fun c => c

/-- Sample file system: the reader yields `records`, nothing fails. -/
def sampleFiles (records : List (List String)) : CsvFiles :=
  ⟨fun _ => none, records.map Except.ok, fun _ => none, fun _ => none⟩

/-- Sample spreadsheet library: one sheet holding `rows`, no call fails, a
cell is named by its coordinates. -/
def sampleSheet (rows : List (List String)) : Excelize :=
  ⟨fun _ => none, ["Sheet1"], fun _ => .ok rows,
   fun col row => .ok (toString col ++ "," ++ toString row),
   fun _ _ _ => none, fun _ => none⟩

/-- Sample spreadsheet library with the column limit of `excelize`: one sheet
holding `rows`; a coordinate below 1 or a column beyond 16384 has no cell
name; no other call fails. -/
def boundedSheet (rows : List (List String)) : Excelize :=
  ⟨fun _ => none, ["Sheet1"], fun _ => .ok rows,
   fun col row =>
     if col < 1 ∨ row < 1 ∨ col > 16384 then .error "invalid cell reference"
     else .ok (toString col ++ "," ++ toString row),
   fun _ _ _ => none, fun _ => none⟩

/-- Equality of two texts up to the case of the ASCII letters: "equal in any
letter case". -/
def equalAnyCase (s t : String) : Prop :=
  s.data.map Char.toLower = t.data.map Char.toLower

instance (s t : String) : Decidable (equalAnyCase s t) := by
  unfold equalAnyCase
  infer_instance

/-- Sample world: `/` separates path elements, the column `"1"` scans as `1`
and nothing else scans, no library call fails. -/
def sampleWorld (rows : List (List String)) : World :=
  ⟨plainTable, plainTable, fun c => c == '/',
   fun s => if s = "1" then .ok 1 else .error "expected integer",
   sampleSheet rows, sampleFiles rows⟩

/-! ## Lemmas on the delimited-text handler -/

/-- Indexing with a non-negative index is the list lookup. -/
theorem goIndex_natCast {α : Type} (xs : List α) (n : Nat) :
    goIndex xs (n : Int) = xs[n]? := by
  simp [goIndex]

/-- Assignment at an index inside the slice does not panic. -/
theorem goSet_natCast {α : Type} (xs : List α) (n : Nat) (v : α) (h : n < xs.length) :
    goSet xs (n : Int) v = some (xs.set n v) := by
  simp [goSet, h]

/-- The transformation adds the ten characters of the suffix. -/
theorem processString_length (upper : Char → Char) (s : String) :
    (processString upper s).length = s.length + 10 := by
  unfold processString stringsToUpper
  rw [String.length_append]
  have h : ("_PROCESSED" : String).length = 10 := by decide
  rw [h]
  show (List.map (unicodeToUpper upper) s.data).length + 10 = s.data.length + 10
  rw [List.length_map]

/-- The ASCII upper case of a lower-case ASCII letter lies 32 code points below it. -/
theorem toUpper_letter (r : Char) (h1 : 97 ≤ r.toNat) (h2 : r.toNat ≤ 122) :
    (Char.toUpper r).toNat + 32 = r.toNat := by
  unfold Char.toUpper
  have h : r.toNat ≥ 97 ∧ r.toNat ≤ 122 := ⟨h1, h2⟩
  simp only [h, and_self, if_true]
  generalize r.toNat = n at h1 h2
  interval_cases n <;> rfl

/-- The loop body never panics on a non-negative index and computes `recordSpec`. -/
theorem processRecord_eq_spec (upper : Char → Char) (k : Nat) (r : List String) :
    processRecord upper (k : Int) r = some (recordSpec upper k r) := by
  unfold processRecord recordSpec
  by_cases h1 : r.length ≤ k
  · have : r.length < k + 1 := by omega
    simp [h1, this]
  · have h2 : ¬ r.length < k + 1 := by omega
    have h3 : k < r.length := by omega
    have h4 : ¬ ((r.length : Int) ≤ (k : Int)) := by omega
    rw [if_neg h4, goIndex_natCast, List.getElem?_eq_getElem h3]
    simp only [h2, if_false]
    by_cases h5 : r.length = k + 1
    · have h6 : (k : Int) + 1 ≥ (r.length : Int) := by omega
      simp [h5, List.getD_eq_getElem?_getD, h3]
    · have h6 : ¬ ((k : Int) + 1 ≥ (r.length : Int)) := by omega
      have h7 : k + 1 < r.length := by omega
      rw [if_neg h6, if_neg h5]
      have := goSet_natCast r (k + 1) (processString upper (r.getD k "")) h7
      simp only [Nat.cast_add, Nat.cast_one] at this
      rw [← this]
      simp [List.getD_eq_getElem?_getD, h3]

/-- The record loop maps `recordSpec` over the data records. -/
theorem processDataRecords_eq_map (upper : Char → Char) (k : Nat) (data : List (List String)) :
    processDataRecords upper (k : Int) data = some (data.map (recordSpec upper k)) := by
  induction data with
  | nil => rfl
  | cons r rest ih => simp [processDataRecords, processRecord_eq_spec, ih]

/-- The loop keeps record 0 and maps `recordSpec` over the others. -/
theorem transformRecords_cons (upper : Char → Char) (k : Nat) (header : List String)
    (data : List (List String)) :
    transformRecords upper (k : Int) (header :: data)
      = some (header :: data.map (recordSpec upper k)) := by
  simp [transformRecords, processDataRecords_eq_map]

/-- Position-wise reading of the mapped data records. -/
theorem getElem_map_recordSpec (upper : Char → Char) (k : Nat) (data : List (List String))
    (i : Nat) (r : List String) (h : data[i]? = some r) :
    (data.map (recordSpec upper k))[i]? = some (recordSpec upper k r) := by
  simp [List.getElem?_map, h]

/-- Mapping a record twice gives the same record as mapping it once. -/
theorem recordSpec_idem (upper : Char → Char) (k : Nat) (r : List String) :
    recordSpec upper k (recordSpec upper k r) = recordSpec upper k r := by
  unfold recordSpec
  by_cases h1 : r.length < k + 1
  · simp [h1]
  · by_cases h2 : r.length = k + 1
    · have hk : k < r.length := by omega
      simp [h1, h2, List.getD_eq_getElem?_getD, List.getElem?_append_left hk]
    · have hk : k < r.length := by omega
      have hk1 : k + 1 < r.length := by omega
      simp [h1, h2, List.getD_eq_getElem?_getD, List.getElem?_set, hk]

/-- Every position other than `k + 1` reads the same before and after. -/
theorem recordSpec_frame (upper : Char → Char) (k : Nat) (r : List String) (j : Nat)
    (hj : j ≠ k + 1) : (recordSpec upper k r)[j]? = r[j]? := by
  unfold recordSpec
  by_cases h1 : r.length < k + 1
  · simp [h1]
  · by_cases h2 : r.length = k + 1
    · rw [if_neg h1, if_pos h2]
      by_cases h3 : j < r.length
      · rw [List.getElem?_append_left h3]
      · have h4 : r.length ≤ j := by omega
        rw [List.getElem?_eq_none (by simp; omega), List.getElem?_eq_none h4]
    · rw [if_neg h1, if_neg h2]
      rw [List.getElem?_set_ne (by omega)]

/-- A record grows by at most one field, and a mapped record has a neighbour slot. -/
theorem recordSpec_length (upper : Char → Char) (k : Nat) (r : List String) :
    r.length ≤ (recordSpec upper k r).length
    ∧ (recordSpec upper k r).length ≤ r.length + 1
    ∧ (k < r.length → k + 2 ≤ (recordSpec upper k r).length) := by
  unfold recordSpec
  by_cases h1 : r.length < k + 1
  · rw [if_pos h1]; omega
  · by_cases h2 : r.length = k + 1
    · rw [if_neg h1, if_pos h2]; simp; omega
    · rw [if_neg h1, if_neg h2]; simp; omega

/-- A write loop without error has handed every record to the writer. -/
theorem writeRecords_complete (writeRecord : List String → Option String)
    (records : List (List String))
    (h : (writeRecords writeRecord records).2 = none) :
    (writeRecords writeRecord records).1 = records := by
  induction records with
  | nil => rfl
  | cons r rest ih =>
    unfold writeRecords at h ⊢
    cases hw : writeRecord r with
    | some e => simp [hw] at h
    | none =>
      simp only [hw] at h ⊢
      rw [ih h]

/-- The records handed to the writer are a leading part of the records to write. -/
theorem writeRecords_prefix (writeRecord : List String → Option String)
    (records : List (List String)) :
    (writeRecords writeRecord records).1 <+: records := by
  induction records with
  | nil => exact List.prefix_refl _
  | cons r rest ih =>
    unfold writeRecords
    cases hw : writeRecord r with
    | some e =>
      simp only
      exact ⟨rest, rfl⟩
    | none =>
      simp only
      exact (List.prefix_cons_inj r).mpr ih

/-- The write loop fails with a write error or not at all. -/
theorem writeRecords_err (writeRecord : List String → Option String)
    (records : List (List String)) :
    (writeRecords writeRecord records).2 = none
    ∨ ∃ e, (writeRecords writeRecord records).2 = some (.write e) := by
  induction records with
  | nil => exact Or.inl rfl
  | cons r rest ih =>
    unfold writeRecords
    cases hw : writeRecord r with
    | some e => exact Or.inr ⟨e, rfl⟩
    | none => simpa using ih

/-- Width of the header of a non-empty record list. -/
theorem headerWidth_cons (header : List String) (data : List (List String)) :
    headerWidth (header :: data) = (header.length : Int) := rfl

/-- After a successful read and validation the handler reaches `os.Create`. -/
theorem processCSVFile_valid (upper : Char → Char) (fs : CsvFiles)
    (inputPath outputPath : String) (header : List String) (data : List (List String))
    (k : Nat) (hopen : fs.openInput inputPath = none)
    (hread : readRecords fs.reads = .ok (header :: data)) (hk : k < header.length) :
    processCSVFile upper fs inputPath outputPath (k : Int)
      = match fs.createOutput outputPath with
        | some e => ⟨some (.createOutput e), true, []⟩
        | none =>
          ⟨(writeRecords fs.writeRecord (header :: data.map (recordSpec upper k))).2, true,
           (writeRecords fs.writeRecord (header :: data.map (recordSpec upper k))).1⟩ := by
  unfold processCSVFile
  have h1 : ¬ (((k : Int) < 0) ∨ ((k : Int) ≥ headerWidth (header :: data))) := by
    rw [headerWidth_cons]; omega
  simp only [hopen, hread, List.length_cons, Nat.add_one_ne_zero, if_false, if_neg h1,
    transformRecords_cons]

/-- A run without error has written the header and the mapped data records. -/
theorem processCSVFile_written (upper : Char → Char) (fs : CsvFiles)
    (inputPath outputPath : String) (header : List String) (data : List (List String))
    (k : Nat) (hopen : fs.openInput inputPath = none)
    (hread : readRecords fs.reads = .ok (header :: data)) (hk : k < header.length)
    (hrun : (processCSVFile upper fs inputPath outputPath (k : Int)).err = none) :
    (processCSVFile upper fs inputPath outputPath (k : Int)).written
      = header :: data.map (recordSpec upper k) := by
  rw [processCSVFile_valid upper fs inputPath outputPath header data k hopen hread hk] at hrun ⊢
  cases hc : fs.createOutput outputPath with
  | some e => simp [hc] at hrun
  | none =>
    simp only [hc] at hrun ⊢
    exact writeRecords_complete _ _ hrun

/-! ## Lemmas on the spreadsheet handler -/

/-- The header scan returns `-1` when the name is absent and the first matching position otherwise. -/
theorem findColumnIndex_spec (columnName : String) (cells : List String) (i : Nat) :
    (columnName ∉ cells ∧ findColumnIndex columnName i cells = -1)
    ∨ ∃ j : Nat, findColumnIndex columnName i cells = ((i + j : Nat) : Int)
        ∧ cells[j]? = some columnName ∧ ∀ j1 : Nat, j1 < j → cells[j1]? ≠ some columnName := by
  induction cells generalizing i with
  | nil => exact Or.inl ⟨by simp, rfl⟩
  | cons cell rest ih =>
    unfold findColumnIndex
    by_cases h : cell = columnName
    · refine Or.inr ⟨0, by simp [h], by simp [h], ?_⟩
      intro j1 hj1
      omega
    · rw [if_neg h]
      rcases ih (i + 1) with ⟨hnot, hres⟩ | ⟨j, hres, hj, hmin⟩
      · refine Or.inl ⟨?_, hres⟩
        simp only [List.mem_cons, not_or]
        exact ⟨fun hc => h hc.symm, hnot⟩
      · refine Or.inr ⟨j + 1, ?_, by simpa using hj, ?_⟩
        · rw [hres]; congr 1; omega
        · intro j1 hj1
          cases j1 with
          | zero => simpa using h
          | succ j2 =>
            simp only [List.getElem?_cons_succ]
            exact hmin j2 (by omega)

/-- Every cell write of the row loop is in column `columnIndex + 2` and in a row the loop has visited. -/
theorem processRows_writes (upper : Char → Char) (lib : Excelize) (sheetName : String)
    (columnIndex : Int) (rows : List (List String)) (i : Nat) :
    ∀ w ∈ (processRows upper lib sheetName columnIndex i rows).1,
      w.col = columnIndex + 2 ∧ (i : Int) + 1 ≤ w.row := by
  induction rows generalizing i with
  | nil => intro w hw; simp [processRows] at hw
  | cons row rest ih =>
    intro w hw
    unfold processRows at hw
    by_cases h : (row.length : Int) ≤ columnIndex
    · rw [if_pos h] at hw
      have := ih (i + 1) w hw
      push_cast at this
      exact ⟨this.1, by omega⟩
    · rw [if_neg h] at hw
      cases hg : goIndex row columnIndex with
      | none => simp [hg] at hw
      | some cellValue =>
        simp only [hg] at hw
        cases hc : lib.coordinatesToCellName (columnIndex + 2) ((i : Int) + 1) with
        | error e => simp [hc] at hw
        | ok cellAddr =>
          simp only [hc] at hw
          cases hs : lib.setCellValue sheetName cellAddr (processString upper cellValue) with
          | some e =>
            simp only [hs, List.mem_singleton] at hw
            subst hw
            exact ⟨rfl, le_refl _⟩
          | none =>
            simp only [hs, List.mem_cons] at hw
            rcases hw with hw | hw
            · subst hw
              exact ⟨rfl, le_refl _⟩
            · have := ih (i + 1) w hw
              push_cast at this
              exact ⟨this.1, by omega⟩

/-- Every cell write of the row loop belongs to a row holding the matched column: it is at
the coordinates computed for that row and carries the transformed cell text. -/
theorem processRows_sound (upper : Char → Char) (lib : Excelize) (sheetName : String)
    (c : Nat) (rows : List (List String)) (i : Nat) :
    ∀ w ∈ (processRows upper lib sheetName (c : Int) i rows).1,
      ∃ (j : Nat) (row : List String), rows[j]? = some row ∧ c < row.length
        ∧ w.col = (c : Int) + 2 ∧ w.row = ((i + j : Nat) : Int) + 1
        ∧ w.value = processString upper (row.getD c "")
        ∧ lib.coordinatesToCellName ((c : Int) + 2) (((i + j : Nat) : Int) + 1)
            = .ok w.cell := by
  induction rows generalizing i with
  | nil => intro w hw; simp [processRows] at hw
  | cons r rest ih =>
    intro w hw
    have hstep : ∀ w ∈ (processRows upper lib sheetName (c : Int) (i + 1) rest).1,
        ∃ (j : Nat) (row : List String), (r :: rest)[j]? = some row ∧ c < row.length
          ∧ w.col = (c : Int) + 2 ∧ w.row = ((i + j : Nat) : Int) + 1
          ∧ w.value = processString upper (row.getD c "")
          ∧ lib.coordinatesToCellName ((c : Int) + 2) (((i + j : Nat) : Int) + 1)
              = .ok w.cell := by
      intro w1 hw1
      obtain ⟨j, row, hj, hlen, hcol, hrow, hval, hco⟩ := ih (i + 1) w1 hw1
      have he : i + 1 + j = i + (j + 1) := by omega
      rw [he] at hrow hco
      exact ⟨j + 1, row, by simpa using hj, hlen, hcol, hrow, hval, hco⟩
    unfold processRows at hw
    by_cases h : (r.length : Int) ≤ (c : Int)
    · rw [if_pos h] at hw
      exact hstep w hw
    · rw [if_neg h] at hw
      have hc : c < r.length := by omega
      rw [goIndex_natCast, List.getElem?_eq_getElem hc] at hw
      simp only at hw
      have hhead : ∀ cellAddr, lib.coordinatesToCellName ((c : Int) + 2) ((i : Int) + 1)
            = .ok cellAddr →
          ∃ (j : Nat) (row : List String), (r :: rest)[j]? = some row ∧ c < row.length
            ∧ (⟨(c : Int) + 2, (i : Int) + 1, cellAddr, processString upper r[c]⟩
                : CellWrite).col = (c : Int) + 2
            ∧ (⟨(c : Int) + 2, (i : Int) + 1, cellAddr, processString upper r[c]⟩
                : CellWrite).row = ((i + j : Nat) : Int) + 1
            ∧ (⟨(c : Int) + 2, (i : Int) + 1, cellAddr, processString upper r[c]⟩
                : CellWrite).value = processString upper (row.getD c "")
            ∧ lib.coordinatesToCellName ((c : Int) + 2) (((i + j : Nat) : Int) + 1)
                = .ok (⟨(c : Int) + 2, (i : Int) + 1, cellAddr, processString upper r[c]⟩
                : CellWrite).cell := by
        intro cellAddr hco
        refine ⟨0, r, by simp, hc, rfl, by simp, ?_, by simpa using hco⟩
        simp [List.getD_eq_getElem?_getD, hc]
      cases hco : lib.coordinatesToCellName ((c : Int) + 2) ((i : Int) + 1) with
      | error e => simp [hco] at hw
      | ok cellAddr =>
        simp only [hco] at hw
        cases hs : lib.setCellValue sheetName cellAddr (processString upper r[c]) with
        | some e =>
          simp only [hs, List.mem_singleton] at hw
          subst hw
          exact hhead cellAddr hco
        | none =>
          simp only [hs, List.mem_cons] at hw
          rcases hw with hw | hw
          · subst hw
            exact hhead cellAddr hco
          · exact hstep w hw

/-- The cell writes of the row loop are issued in strictly increasing row order. -/
theorem processRows_increasing (upper : Char → Char) (lib : Excelize) (sheetName : String)
    (columnIndex : Int) (rows : List (List String)) (i : Nat) :
    (processRows upper lib sheetName columnIndex i rows).1.Pairwise
      (fun a b => a.row < b.row) := by
  induction rows generalizing i with
  | nil => simp [processRows]
  | cons row rest ih =>
    unfold processRows
    by_cases h : (row.length : Int) ≤ columnIndex
    · rw [if_pos h]; exact ih (i + 1)
    · rw [if_neg h]
      cases hg : goIndex row columnIndex with
      | none => simp
      | some cellValue =>
        simp only
        cases hc : lib.coordinatesToCellName (columnIndex + 2) ((i : Int) + 1) with
        | error e => simp
        | ok cellAddr =>
          simp only
          cases hs : lib.setCellValue sheetName cellAddr (processString upper cellValue) with
          | some e => simp
          | none =>
            simp only
            refine List.pairwise_cons.mpr ⟨?_, ih (i + 1)⟩
            intro w hw
            have := (processRows_writes upper lib sheetName columnIndex rest (i + 1) w hw).2
            push_cast at this
            show (i : Int) + 1 < w.row
            omega

/-- Rows without the matched column produce no write and no error. -/
theorem processRows_short (upper : Char → Char) (lib : Excelize) (sheetName : String)
    (c : Nat) (rows : List (List String)) (i : Nat)
    (h : ∀ row ∈ rows, row.length ≤ c) :
    processRows upper lib sheetName (c : Int) i rows = ([], none) := by
  induction rows generalizing i with
  | nil => rfl
  | cons row rest ih =>
    unfold processRows
    have h1 : (row.length : Int) ≤ (c : Int) := by
      have := h row (by simp)
      omega
    rw [if_pos h1]
    exact ih (i + 1) (fun r hr => h r (by simp [hr]))

/-- The cell writes of the row loop for the row at offset `j`, when no library
call has failed on an earlier row holding the matched column: none for a short
row, none when the cell name cannot be computed (the loop then stops with that
error), and otherwise exactly the write of the transformed cell text. -/
theorem processRows_at (upper : Char → Char) (lib : Excelize) (sheetName : String)
    (c : Nat) (rows : List (List String)) (i j : Nat) (row : List String)
    (hrow : rows[j]? = some row)
    (hearlier : ∀ (j1 : Nat) (row1 : List String), j1 < j → rows[j1]? = some row1 →
      c < row1.length →
      ∃ cell, lib.coordinatesToCellName ((c : Int) + 2) (((i + j1 : Nat) : Int) + 1) = .ok cell
        ∧ lib.setCellValue sheetName cell (processString upper (row1.getD c "")) = none) :
    (processRows upper lib sheetName (c : Int) i rows).1.filter
        (fun w => decide (w.row = ((i + j : Nat) : Int) + 1))
      = (if row.length ≤ c then []
         else
           match lib.coordinatesToCellName ((c : Int) + 2) (((i + j : Nat) : Int) + 1) with
           | .ok cell =>
             [⟨(c : Int) + 2, ((i + j : Nat) : Int) + 1, cell,
               processString upper (row.getD c "")⟩]
           | .error _ => [])
    ∧ (c < row.length → ∀ e,
        lib.coordinatesToCellName ((c : Int) + 2) (((i + j : Nat) : Int) + 1) = .error e →
        (processRows upper lib sheetName (c : Int) i rows).2 = some (.cellAddress e)) := by
  induction rows generalizing i j with
  | nil => simp at hrow
  | cons r rest ih =>
    have hlater : ∀ ws : List CellWrite,
        (∀ w ∈ ws, ((i + 1 : Nat) : Int) + 1 ≤ w.row) →
        ws.filter (fun w => decide (w.row = ((i + 0 : Nat) : Int) + 1)) = [] := by
      intro ws hws
      apply List.filter_eq_nil_iff.mpr
      intro w hw
      have := hws w hw
      simp only [decide_eq_true_eq]
      push_cast at this ⊢
      omega
    have htail := hlater _
      (fun w hw => (processRows_writes upper lib sheetName c rest (i + 1) w hw).2)
    cases j with
    | zero =>
      simp only [List.getElem?_cons_zero, Option.some.injEq] at hrow
      subst hrow
      unfold processRows
      by_cases h : (r.length : Int) ≤ (c : Int)
      · have hle : r.length ≤ c := by omega
        rw [if_pos h, if_pos hle]
        exact ⟨htail, fun hc => by omega⟩
      · have hc : c < r.length := by omega
        have hnle : ¬ r.length ≤ c := by omega
        rw [if_neg h, if_neg hnle, goIndex_natCast, List.getElem?_eq_getElem hc]
        have hval : r.getD c "" = r[c] := by
          simp [List.getD_eq_getElem?_getD, hc]
        rw [hval]
        simp only [Nat.add_zero]
        cases hco : lib.coordinatesToCellName ((c : Int) + 2) ((i : Int) + 1) with
        | error e =>
          simp only [List.filter_nil, true_and]
          intro _ e1 he1
          injection he1 with he1
          rw [he1]
        | ok cellAddr =>
          simp only
          cases hs : lib.setCellValue sheetName cellAddr (processString upper r[c]) with
          | some e =>
            simp only
            refine ⟨?_, fun _ e1 he1 => by simp at he1⟩
            rw [List.filter_cons_of_pos (by simp)]
            rfl
          | none =>
            simp only
            refine ⟨?_, fun _ e1 he1 => by simp at he1⟩
            rw [List.filter_cons_of_pos (by simp)]
            simp only [Nat.add_zero] at htail
            rw [htail]
    | succ j =>
      simp only [List.getElem?_cons_succ] at hrow
      have he : i + 1 + j = i + (j + 1) := by omega
      have hearlier1 : ∀ (j1 : Nat) (row1 : List String), j1 < j → rest[j1]? = some row1 →
          c < row1.length →
          ∃ cell, lib.coordinatesToCellName ((c : Int) + 2) (((i + 1 + j1 : Nat) : Int) + 1)
              = .ok cell
            ∧ lib.setCellValue sheetName cell (processString upper (row1.getD c "")) = none := by
        intro j1 row1 hj1 hr1 hl1
        have := hearlier (j1 + 1) row1 (by omega) (by simpa using hr1) hl1
        have he1 : i + (j1 + 1) = i + 1 + j1 := by omega
        rw [he1] at this
        exact this
      have hih := ih (i + 1) j hrow hearlier1
      rw [he] at hih
      unfold processRows
      by_cases h : (r.length : Int) ≤ (c : Int)
      · rw [if_pos h]
        exact hih
      · have hc : c < r.length := by omega
        rw [if_neg h, goIndex_natCast, List.getElem?_eq_getElem hc]
        obtain ⟨cell0, hco0, hs0⟩ := hearlier 0 r (by omega) (by simp) hc
        have hval : r.getD c "" = r[c] := by
          simp [List.getD_eq_getElem?_getD, hc]
        rw [hval] at hs0
        simp only [Nat.add_zero] at hco0
        simp only [hco0, hs0]
        have hne : ¬ ((i : Int) + 1 = ((i + (j + 1) : Nat) : Int) + 1) := by
          push_cast; omega
        rw [List.filter_cons_of_neg (by simpa using hne)]
        exact hih

/-- The row loop never reports a missing column. -/
theorem processRows_err (upper : Char → Char) (lib : Excelize) (sheetName : String)
    (columnIndex : Int) (rows : List (List String)) (i : Nat) (name : String) :
    (processRows upper lib sheetName columnIndex i rows).2 ≠ some (.columnNotFound name) := by
  induction rows generalizing i with
  | nil => simp [processRows]
  | cons row rest ih =>
    unfold processRows
    by_cases h : (row.length : Int) ≤ columnIndex
    · rw [if_pos h]; exact ih (i + 1)
    · rw [if_neg h]
      cases hg : goIndex row columnIndex with
      | none => simp
      | some cellValue =>
        simp only
        cases hc : lib.coordinatesToCellName (columnIndex + 2) ((i : Int) + 1) with
        | error e => simp
        | ok cellAddr =>
          simp only
          cases hs : lib.setCellValue sheetName cellAddr (processString upper cellValue) with
          | some e => simp
          | none => exact ih (i + 1)

/-- The handler after the sheet has been loaded with at least one row. -/
theorem processExcelFile_loaded (upper : Char → Char) (lib : Excelize)
    (inputPath outputPath columnName sheet : String) (others header : List String)
    (data : List (List String)) (hopen : lib.openFile inputPath = none)
    (hsheets : lib.sheetList = sheet :: others)
    (hrows : lib.getRows sheet = .ok (header :: data)) :
    processExcelFile upper lib inputPath outputPath columnName
      = if findColumnIndex columnName 0 header = -1 then
          ⟨some (.columnNotFound columnName), [], false⟩
        else
          match (processRows upper lib sheet (findColumnIndex columnName 0 header) 1 data).2 with
          | some e =>
            ⟨some e, (processRows upper lib sheet (findColumnIndex columnName 0 header) 1 data).1,
              false⟩
          | none =>
            match lib.saveAs outputPath with
            | some e =>
              ⟨some (.save e),
                (processRows upper lib sheet (findColumnIndex columnName 0 header) 1 data).1, true⟩
            | none =>
              ⟨none,
                (processRows upper lib sheet (findColumnIndex columnName 0 header) 1 data).1,
                true⟩ := by
  unfold processExcelFile
  simp only [hopen, hsheets, hrows]

/-- The handler once the column is resolved: its writes are those of the row loop, and it calls save exactly when the loop ran to completion. -/
theorem processExcelFile_found (upper : Char → Char) (lib : Excelize)
    (inputPath outputPath columnName sheet : String) (others header : List String)
    (data : List (List String)) (c : Nat) (hopen : lib.openFile inputPath = none)
    (hsheets : lib.sheetList = sheet :: others)
    (hrows : lib.getRows sheet = .ok (header :: data))
    (hcol : findColumnIndex columnName 0 header = (c : Int)) :
    (processExcelFile upper lib inputPath outputPath columnName).writes
        = (processRows upper lib sheet (c : Int) 1 data).1
    ∧ ((processExcelFile upper lib inputPath outputPath columnName).saveCalled = true
        ↔ (processRows upper lib sheet (c : Int) 1 data).2 = none)
    ∧ ((processRows upper lib sheet (c : Int) 1 data).2 = none →
        (processExcelFile upper lib inputPath outputPath columnName).err = none
        ∨ ∃ e, (processExcelFile upper lib inputPath outputPath columnName).err
            = some (.save e)) := by
  rw [processExcelFile_loaded upper lib inputPath outputPath columnName sheet others header data
    hopen hsheets hrows, hcol]
  have hne : ¬ ((c : Int) = -1) := by omega
  rw [if_neg hne]
  cases hr : (processRows upper lib sheet (c : Int) 1 data).2 with
  | some e => simp
  | none =>
    cases hsv : lib.saveAs outputPath with
    | some e => simp
    | none => simp

/-- An error of the row loop is the error of the handler, which then does not save. -/
theorem processExcelFile_aborted (upper : Char → Char) (lib : Excelize)
    (inputPath outputPath columnName sheet : String) (others header : List String)
    (data : List (List String)) (c : Nat) (hopen : lib.openFile inputPath = none)
    (hsheets : lib.sheetList = sheet :: others)
    (hrows : lib.getRows sheet = .ok (header :: data))
    (hcol : findColumnIndex columnName 0 header = (c : Int)) (e : ExcelError)
    (hloop : (processRows upper lib sheet (c : Int) 1 data).2 = some e) :
    (processExcelFile upper lib inputPath outputPath columnName).err = some e
    ∧ (processExcelFile upper lib inputPath outputPath columnName).saveCalled = false := by
  rw [processExcelFile_loaded upper lib inputPath outputPath columnName sheet others header data
    hopen hsheets hrows, hcol]
  have hne : ¬ ((c : Int) = -1) := by omega
  rw [if_neg hne]
  simp [hloop]

/-- The header scan passes over cells that differ from the name. -/
theorem findColumnIndex_replicate (columnName filler : String) (h : filler ≠ columnName)
    (n i : Nat) :
    findColumnIndex columnName i (List.replicate n filler ++ [columnName])
      = ((i + n : Nat) : Int) := by
  induction n generalizing i with
  | zero => simp [findColumnIndex]
  | succ n ih =>
    rw [List.replicate_succ, List.cons_append, findColumnIndex, if_neg h, ih (i + 1)]
    congr 1
    omega

/-- Length of a row of `n` filler cells followed by one cell. -/
theorem length_replicate_append_one (n : Nat) (x y : String) :
    (List.replicate n x ++ [y]).length = n + 1 := by
  simp

/-- The last cell of a row of `n` filler cells followed by one cell. -/
theorem getElem_replicate_append_one (n : Nat) (x y : String) :
    (List.replicate n x ++ [y])[n]? = some y := by
  rw [List.getElem?_append_right (by simp)]
  simp

/-! ## Lemmas on the extension dispatch -/

/-- On a code point whose ASCII lower case is ASCII, `unicode.ToLower` does not consult the case table. -/
theorem unicodeToLower_ascii (lower : Char → Char) (c : Char)
    (h : (Char.toLower c).toNat ≤ 127) : unicodeToLower lower c = Char.toLower c := by
  unfold unicodeToLower
  unfold Char.toLower at h ⊢
  by_cases hc : 65 ≤ c.toNat ∧ c.toNat ≤ 90
  · have h1 : c.toNat ≤ 127 := by omega
    have h2 : c.toNat ≥ 65 ∧ c.toNat ≤ 90 := hc
    simp only [h1, hc, h2, if_true, and_self]
  · have h2 : ¬ (c.toNat ≥ 65 ∧ c.toNat ≤ 90) := hc
    simp only [h2, if_false] at h ⊢
    simp only [h, hc, if_true, if_false]

/-- The same for a whole text. -/
theorem map_unicodeToLower_ascii (lower : Char → Char) (l : List Char)
    (h : ∀ c ∈ l.map Char.toLower, c.toNat ≤ 127) :
    l.map (unicodeToLower lower) = l.map Char.toLower := by
  induction l with
  | nil => rfl
  | cons c rest ih =>
    simp only [List.map_cons, List.mem_cons, forall_eq_or_imp] at h ⊢
    rw [unicodeToLower_ascii lower c h.1, ih h.2]

/-- A text equal to a lower-case ASCII text up to letter case lower-cases to it. -/
theorem stringsToLower_of_equalAnyCase (lower : Char → Char) (s t : String)
    (ht : ∀ c ∈ t.data, c.toNat ≤ 127 ∧ Char.toLower c = c) (h : equalAnyCase s t) :
    stringsToLower lower s = t := by
  unfold equalAnyCase at h
  have ht1 : t.data.map Char.toLower = t.data := by
    conv_rhs => rw [← List.map_id t.data]
    apply List.map_congr_left
    intro c hc
    exact (ht c hc).2
  rw [ht1] at h
  unfold stringsToLower
  rw [map_unicodeToLower_ascii lower s.data (by rw [h]; exact fun c hc => (ht c hc).1), h]

/-- The extension of a path ending in `.txt` is `.txt`, or empty when a letter of it separates path elements. -/
theorem filepathExt_txt (isPathSeparator : Char → Bool) (stem : String) :
    filepathExt isPathSeparator (stem ++ ".txt") = ""
    ∨ filepathExt isPathSeparator (stem ++ ".txt") = ".txt" := by
  unfold filepathExt
  have hd : (stem ++ ".txt").data.reverse = 't' :: 'x' :: 't' :: '.' :: stem.data.reverse := by
    rw [String.data_append]
    simp
  rw [hd]
  unfold extScan
  by_cases h1 : isPathSeparator 't' = true
  · left; simp [h1]
  · unfold extScan
    by_cases h2 : isPathSeparator 'x' = true
    · left; simp [h1, h2]
    · unfold extScan
      unfold extScan
      by_cases h3 : isPathSeparator '.' = true
      · left; simp [h1, h2, h3]
      · right; simp [h1, h2, h3]

/-! ## The transformation function -/

/-- Claim C7: for every text `s`, `processString s` is the upper-cased `s`
followed by the suffix `_PROCESSED`: its characters are those of `s` in order,
each ASCII character replaced by its upper case and each other code point by
its image in the case table, followed by the ten characters of the suffix; in
particular a lower-case ASCII letter becomes the letter 32 code points below it
and any other ASCII character is kept (for example `"abc xyz 09 AZ"` gives
`"ABC XYZ 09 AZ_PROCESSED"`); equal inputs give equal results (the result
depends on nothing but the text); and applying `processString` twice never
gives the result of applying it once. -/
theorem processString_deterministic_not_idempotent (upper : Char → Char) (s : String) :
    (processString upper s).data
        = s.data.map (fun r => if r.toNat ≤ 127 then Char.toUpper r else upper r)
          ++ ['_', 'P', 'R', 'O', 'C', 'E', 'S', 'S', 'E', 'D']
    ∧ (∀ (i : Nat) (r : Char), s.data[i]? = some r →
        ∃ u, (processString upper s).data[i]? = some u
          ∧ (97 ≤ r.toNat → r.toNat ≤ 122 → u.toNat + 32 = r.toNat)
          ∧ (r.toNat ≤ 127 → ¬ (97 ≤ r.toNat ∧ r.toNat ≤ 122) → u = r)
          ∧ (127 < r.toNat → u = upper r))
    ∧ processString upper "abc xyz 09 AZ" = "ABC XYZ 09 AZ_PROCESSED"
    ∧ (∀ t : String, t = s → processString upper t = processString upper s)
    ∧ processString upper (processString upper s) ≠ processString upper s := by
  have hdata : (processString upper s).data
      = s.data.map (fun r => if r.toNat ≤ 127 then Char.toUpper r else upper r)
        ++ ['_', 'P', 'R', 'O', 'C', 'E', 'S', 'S', 'E', 'D'] := by
    unfold processString stringsToUpper
    rw [String.data_append]
    congr 1
  refine ⟨hdata, ?_, rfl, ?_, ?_⟩
  · intro i r hr
    have hi : i < s.data.length := by
      by_contra hcon
      rw [List.getElem?_eq_none (by omega)] at hr
      exact Option.noConfusion hr
    refine ⟨if r.toNat ≤ 127 then Char.toUpper r else upper r, ?_, ?_, ?_, ?_⟩
    · rw [hdata, List.getElem?_append_left (by simpa using hi), List.getElem?_map, hr]
      rfl
    · intro h1 h2
      rw [if_pos (by omega)]
      exact toUpper_letter r h1 h2
    · intro h1 h2
      rw [if_pos h1]
      unfold Char.toUpper
      have h3 : ¬ (r.toNat ≥ 97 ∧ r.toNat ≤ 122) := h2
      simp only [h3, if_false]
    · intro h1
      rw [if_neg (by omega)]
  · intro t ht
    rw [ht]
  · intro h
    have hlen := congrArg String.length h
    rw [processString_length, processString_length] at hlen
    omega

/-! ## The delimited-text handler -/

/-- Claim C1: in the record loop of `processCSVFile`, for every header, every
list of data records and every column index `k` below the header width, the
loop does not panic, keeps the header and the number of data records, and maps
each data record `r` as follows: with fewer than `k + 1` fields it is output
unchanged; with exactly `k + 1` fields the output is `r` with
`processString r[k]` appended; otherwise the output is `r` with field `k + 1`
replaced by `processString r[k]`.  Example: record `["a"]` with index `0`
becomes `["a", "A_PROCESSED"]`. -/
theorem processCSVFile_record_mapping (upper : Char → Char) (header : List String)
    (data : List (List String)) (k : Nat) (_hk : k < header.length) :
    (∃ out : List (List String),
      transformRecords upper (k : Int) (header :: data) = some (header :: out)
      ∧ out.length = data.length
      ∧ ∀ (i : Nat) (r : List String), data[i]? = some r →
          (r.length < k + 1 → out[i]? = some r)
          ∧ (r.length = k + 1 →
              out[i]? = some (r ++ [processString upper (r.getD k "")]))
          ∧ (k + 1 < r.length →
              out[i]? = some (r.set (k + 1) (processString upper (r.getD k "")))))
    ∧ transformRecords upper 0 [header, ["a"]] = some [header, ["a", "A_PROCESSED"]] := by
  refine ⟨⟨data.map (recordSpec upper k), transformRecords_cons upper k header data,
    by simp, ?_⟩, ?_⟩
  · intro i r hr
    have hm := getElem_map_recordSpec upper k data i r hr
    refine ⟨?_, ?_, ?_⟩
    · intro h
      rw [hm]; simp [recordSpec, h]
    · intro h
      rw [hm]; simp [recordSpec, h]
    · intro h
      have h1 : ¬ r.length < k + 1 := by omega
      have h2 : ¬ r.length = k + 1 := by omega
      rw [hm]; simp [recordSpec, h1, h2]
  · rfl

/-- Claim C1 at header `["h"]`, data record `["a"]`, index `0`. -/
theorem processCSVFile_record_mapping_witness :
    (∃ out : List (List String),
      transformRecords plainTable ((0 : Nat) : Int) (["h"] :: [["a"]]) = some (["h"] :: out)
      ∧ out.length = [["a"]].length
      ∧ ∀ (i : Nat) (r : List String), [["a"]][i]? = some r →
          (r.length < 0 + 1 → out[i]? = some r)
          ∧ (r.length = 0 + 1 →
              out[i]? = some (r ++ [processString plainTable (r.getD 0 "")]))
          ∧ (0 + 1 < r.length →
              out[i]? = some (r.set (0 + 1) (processString plainTable (r.getD 0 "")))))
    ∧ transformRecords plainTable 0 [["h"], ["a"]] = some [["h"], ["a", "A_PROCESSED"]] :=
  processCSVFile_record_mapping plainTable ["h"] [["a"]] 0 (by decide)

/-- Claim C2 fails as stated: with column index `1`, header `["x", "y"]` and
data record `["a", "b"]`, `processCSVFile` succeeds and writes the data record
`["a", "b", "B_PROCESSED"]`, not `["a", "B_PROCESSED"]`. -/
theorem csv_index_one_counterexample :
    (processCSVFile plainTable (sampleFiles [["x", "y"], ["a", "b"]])
        "in.csv" "out.csv" 1)
      = ⟨none, true, [["x", "y"], ["a", "b", "B_PROCESSED"]]⟩
    ∧ (processCSVFile plainTable (sampleFiles [["x", "y"], ["a", "b"]])
        "in.csv" "out.csv" 1).written[1]? ≠ some ["a", "B_PROCESSED"] := by
  decide

/-- Claim C2 as amended: in `processCSVFile` with column index `1`, in every
run that returns no error, a data record `["a", "b"]` is written as
`["a", "b", "B_PROCESSED"]`: field `1` is kept and the transformed value is
appended after it. -/
theorem csv_index_one_appends (upper : Char → Char) (fs : CsvFiles)
    (inputPath outputPath : String) (header : List String) (data : List (List String))
    (hopen : fs.openInput inputPath = none)
    (hread : readRecords fs.reads = .ok (header :: data)) (hk : 1 < header.length)
    (hrun : (processCSVFile upper fs inputPath outputPath 1).err = none) :
    ∀ i : Nat, data[i]? = some ["a", "b"] →
      (processCSVFile upper fs inputPath outputPath 1).written[i + 1]?
        = some ["a", "b", "B_PROCESSED"] := by
  intro i hi
  have hw := processCSVFile_written upper fs inputPath outputPath header data 1 hopen hread hk
  simp only [Nat.cast_one] at hw
  rw [hw hrun, List.getElem?_cons_succ, getElem_map_recordSpec upper 1 data i _ hi]
  rfl

/-- Claim C2 as amended at header `["x", "y"]` and data record `["a", "b"]`. -/
theorem csv_index_one_appends_witness :
    (processCSVFile plainTable (sampleFiles [["x", "y"], ["a", "b"]])
      "in.csv" "out.csv" 1).written[0 + 1]? = some ["a", "b", "B_PROCESSED"] :=
  csv_index_one_appends plainTable (sampleFiles [["x", "y"], ["a", "b"]]) "in.csv" "out.csv"
    ["x", "y"] [["a", "b"]] rfl rfl (by decide) (by decide) 0 rfl

/-- Claim C3: for every non-empty record list and every index `k` within the
header width, the record loop of `processCSVFile` returns the records to
write, as many as the records read and in the same order: the header record is
identical, every position `j` other than `k + 1` of every record reads the
same before and after (present with the same value, or absent in both), and a
record grows by at most one field, so only position `k + 1` is added or
overwritten, whatever short records occur.  The records handed to the writer
are always a leading part of these records, and all of them in a run that
returns no error. -/
theorem processCSVFile_frame (upper : Char → Char) (fs : CsvFiles)
    (inputPath outputPath : String) (records : List (List String)) (k : Int)
    (hopen : fs.openInput inputPath = none)
    (hread : readRecords fs.reads = .ok records) (hne : records ≠ [])
    (hk0 : 0 ≤ k) (hk : k < headerWidth records) :
    ∃ out : List (List String), transformRecords upper k records = some out
      ∧ out.length = records.length
      ∧ out[0]? = records[0]?
      ∧ (∀ i j : Nat, (j : Int) ≠ k + 1 →
          (out[i]?).bind (fun r => r[j]?) = (records[i]?).bind (fun r => r[j]?))
      ∧ (∀ (i : Nat) (r : List String), records[i]? = some r →
          ∃ r1, out[i]? = some r1 ∧ r.length ≤ r1.length ∧ r1.length ≤ r.length + 1)
      ∧ (processCSVFile upper fs inputPath outputPath k).written <+: out
      ∧ ((processCSVFile upper fs inputPath outputPath k).err = none →
          (processCSVFile upper fs inputPath outputPath k).written = out) := by
  obtain ⟨n, rfl⟩ := Int.eq_ofNat_of_zero_le hk0
  cases records with
  | nil => exact absurd rfl hne
  | cons header data =>
    rw [headerWidth_cons] at hk
    have hn : n < header.length := by omega
    refine ⟨header :: data.map (recordSpec upper n), transformRecords_cons upper n header data,
      by simp, by simp, ?_, ?_, ?_, ?_⟩
    · intro i j hj
      have hj1 : j ≠ n + 1 := by omega
      cases i with
      | zero => simp
      | succ i =>
        simp only [List.getElem?_cons_succ, List.getElem?_map]
        cases data[i]? with
        | none => rfl
        | some r => exact recordSpec_frame upper n r j hj1
    · intro i r hr
      cases i with
      | zero =>
        simp only [List.getElem?_cons_zero] at hr ⊢
        injection hr with hr
        subst hr
        exact ⟨_, rfl, by omega, by omega⟩
      | succ i =>
        simp only [List.getElem?_cons_succ] at hr ⊢
        rw [getElem_map_recordSpec upper n data i r hr]
        exact ⟨_, rfl, (recordSpec_length upper n r).1, (recordSpec_length upper n r).2.1⟩
    · rw [processCSVFile_valid upper fs inputPath outputPath header data n hopen hread hn]
      cases hc : fs.createOutput outputPath with
      | some e => exact List.nil_prefix
      | none => exact writeRecords_prefix _ _
    · exact processCSVFile_written upper fs inputPath outputPath header data n hopen hread hn

/-- Claim C3 at records `["x", "y"]`, `["a", "b"]`, `["c"]` and index `1`. -/
theorem processCSVFile_frame_witness :
    ∃ out : List (List String),
      transformRecords plainTable 1 [["x", "y"], ["a", "b"], ["c"]] = some out
      ∧ out.length = [["x", "y"], ["a", "b"], ["c"]].length
      ∧ out[0]? = [["x", "y"], ["a", "b"], ["c"]][0]?
      ∧ (∀ i j : Nat, (j : Int) ≠ 1 + 1 →
          (out[i]?).bind (fun r => r[j]?)
            = ([["x", "y"], ["a", "b"], ["c"]][i]?).bind (fun r => r[j]?))
      ∧ (∀ (i : Nat) (r : List String), [["x", "y"], ["a", "b"], ["c"]][i]? = some r →
          ∃ r1, out[i]? = some r1 ∧ r.length ≤ r1.length ∧ r1.length ≤ r.length + 1)
      ∧ (processCSVFile plainTable (sampleFiles [["x", "y"], ["a", "b"], ["c"]])
          "in.csv" "out.csv" 1).written <+: out
      ∧ ((processCSVFile plainTable (sampleFiles [["x", "y"], ["a", "b"], ["c"]])
          "in.csv" "out.csv" 1).err = none →
          (processCSVFile plainTable (sampleFiles [["x", "y"], ["a", "b"], ["c"]])
            "in.csv" "out.csv" 1).written = out) :=
  processCSVFile_frame plainTable (sampleFiles [["x", "y"], ["a", "b"], ["c"]])
    "in.csv" "out.csv" [["x", "y"], ["a", "b"], ["c"]] 1 rfl rfl (by decide) (by decide)
    (by decide)

/-- Claim C9: once the records have been read, `processCSVFile` fails without
having called `os.Create` if and only if the record list is empty or the column
index `k` is outside `[0, header width)`; an empty list gives "empty CSV file"
and an index out of range gives "column index out of bounds", in both cases
with the output never created and no record written; and for a non-empty list
with `0 ≤ k < header width` the record loop returns its result without a
panic, the run reaches `os.Create`, and its error is none of the three. -/
theorem processCSVFile_validation (upper : Char → Char) (fs : CsvFiles)
    (inputPath outputPath : String) (records : List (List String)) (k : Int)
    (hopen : fs.openInput inputPath = none)
    (hread : readRecords fs.reads = .ok records) :
    (((processCSVFile upper fs inputPath outputPath k).err ≠ none
        ∧ (processCSVFile upper fs inputPath outputPath k).createCalled = false)
      ↔ (records = [] ∨ k < 0 ∨ headerWidth records ≤ k))
    ∧ (records = [] →
        processCSVFile upper fs inputPath outputPath k = ⟨some .emptyFile, false, []⟩)
    ∧ (records ≠ [] → (k < 0 ∨ headerWidth records ≤ k) →
        processCSVFile upper fs inputPath outputPath k = ⟨some (.outOfBounds k), false, []⟩)
    ∧ (records ≠ [] → 0 ≤ k → k < headerWidth records →
        (∃ out, transformRecords upper k records = some out)
        ∧ (processCSVFile upper fs inputPath outputPath k).createCalled = true
        ∧ (processCSVFile upper fs inputPath outputPath k).err ≠ some .panic
        ∧ (processCSVFile upper fs inputPath outputPath k).err ≠ some .emptyFile
        ∧ (processCSVFile upper fs inputPath outputPath k).err ≠ some (.outOfBounds k)) := by
  have hempty : records = [] →
      processCSVFile upper fs inputPath outputPath k = ⟨some .emptyFile, false, []⟩ := by
    intro h
    subst h
    simp [processCSVFile, hopen, hread]
  have hbounds : records ≠ [] → (k < 0 ∨ headerWidth records ≤ k) →
      processCSVFile upper fs inputPath outputPath k
        = ⟨some (.outOfBounds k), false, []⟩ := by
    intro hne hk
    have hlen : ¬ records.length = 0 := by
      intro h; exact hne (List.length_eq_zero.mp h)
    have hk1 : k < 0 ∨ k ≥ headerWidth records := hk
    simp only [processCSVFile, hopen, hread, if_neg hlen, if_pos hk1]
  have hvalid : records ≠ [] → 0 ≤ k → k < headerWidth records →
      (∃ out, transformRecords upper k records = some out)
      ∧ (processCSVFile upper fs inputPath outputPath k).createCalled = true
      ∧ (processCSVFile upper fs inputPath outputPath k).err ≠ some .panic
      ∧ (processCSVFile upper fs inputPath outputPath k).err ≠ some .emptyFile
      ∧ (processCSVFile upper fs inputPath outputPath k).err ≠ some (.outOfBounds k) := by
    intro hne hk0 hk
    obtain ⟨n, rfl⟩ := Int.eq_ofNat_of_zero_le hk0
    cases records with
    | nil => exact absurd rfl hne
    | cons header data =>
      rw [headerWidth_cons] at hk
      have hn : n < header.length := by omega
      have hv := processCSVFile_valid upper fs inputPath outputPath header data n hopen hread hn
      simp only [Int.ofNat_eq_coe] at hv ⊢
      refine ⟨⟨_, transformRecords_cons upper n header data⟩, ?_⟩
      rw [hv]
      cases hc : fs.createOutput outputPath with
      | some e => simp
      | none =>
        simp only [true_and]
        have herr := writeRecords_err fs.writeRecord (header :: data.map (recordSpec upper n))
        rcases herr with h | ⟨e, h⟩ <;> simp [h]
  refine ⟨⟨?_, ?_⟩, hempty, hbounds, hvalid⟩
  · rintro ⟨herr, hcreate⟩
    by_contra hcon
    simp only [not_or, not_lt, not_le] at hcon
    have := (hvalid hcon.1 hcon.2.1 hcon.2.2).2.1
    rw [hcreate] at this
    exact Bool.noConfusion this
  · intro h
    by_cases hne : records = []
    · rw [hempty hne]; simp
    · rcases h with h | h
      · exact absurd h hne
      · rw [hbounds hne h]; simp

/-- Claim C9 at records `["x", "y"]`, `["a", "b"]` and index `2`. -/
theorem processCSVFile_validation_witness :
    (((processCSVFile plainTable (sampleFiles [["x", "y"], ["a", "b"]])
          "in.csv" "out.csv" 2).err ≠ none
        ∧ (processCSVFile plainTable (sampleFiles [["x", "y"], ["a", "b"]])
          "in.csv" "out.csv" 2).createCalled = false)
      ↔ ([["x", "y"], ["a", "b"]] = [] ∨ (2 : Int) < 0
          ∨ headerWidth [["x", "y"], ["a", "b"]] ≤ 2))
    ∧ ([["x", "y"], ["a", "b"]] = [] →
        processCSVFile plainTable (sampleFiles [["x", "y"], ["a", "b"]])
          "in.csv" "out.csv" 2 = ⟨some .emptyFile, false, []⟩)
    ∧ ([["x", "y"], ["a", "b"]] ≠ [] →
        ((2 : Int) < 0 ∨ headerWidth [["x", "y"], ["a", "b"]] ≤ 2) →
        processCSVFile plainTable (sampleFiles [["x", "y"], ["a", "b"]])
          "in.csv" "out.csv" 2 = ⟨some (.outOfBounds 2), false, []⟩)
    ∧ ([["x", "y"], ["a", "b"]] ≠ [] → (0 : Int) ≤ 2 →
        2 < headerWidth [["x", "y"], ["a", "b"]] →
        (∃ out, transformRecords plainTable 2 [["x", "y"], ["a", "b"]] = some out)
        ∧ (processCSVFile plainTable (sampleFiles [["x", "y"], ["a", "b"]])
            "in.csv" "out.csv" 2).createCalled = true
        ∧ (processCSVFile plainTable (sampleFiles [["x", "y"], ["a", "b"]])
            "in.csv" "out.csv" 2).err ≠ some .panic
        ∧ (processCSVFile plainTable (sampleFiles [["x", "y"], ["a", "b"]])
            "in.csv" "out.csv" 2).err ≠ some .emptyFile
        ∧ (processCSVFile plainTable (sampleFiles [["x", "y"], ["a", "b"]])
            "in.csv" "out.csv" 2).err ≠ some (.outOfBounds 2)) :=
  processCSVFile_validation plainTable (sampleFiles [["x", "y"], ["a", "b"]])
    "in.csv" "out.csv" [["x", "y"], ["a", "b"]] 2 rfl rfl

/-- Claim C10: for every non-empty record list and every index `k` within the
header width, the record loop of `processCSVFile` returns an output, and the
loop applied with the same index to that output returns the same output; every
data record that held field `k` comes out with at least `k + 2` fields and with
field `k` untouched. -/
theorem transformRecords_idempotent (upper : Char → Char) (records : List (List String))
    (k : Int) (hne : records ≠ []) (hk0 : 0 ≤ k) (_hk : k < headerWidth records) :
    ∃ out, transformRecords upper k records = some out
      ∧ transformRecords upper k out = some out
      ∧ ∀ (i : Nat) (r r1 : List String), 1 ≤ i → records[i]? = some r →
          out[i]? = some r1 → k < (r.length : Int) →
          k + 2 ≤ (r1.length : Int) ∧ goIndex r1 k = goIndex r k := by
  obtain ⟨n, rfl⟩ := Int.eq_ofNat_of_zero_le hk0
  cases records with
  | nil => exact absurd rfl hne
  | cons header data =>
    refine ⟨header :: data.map (recordSpec upper n), transformRecords_cons upper n header data,
      ?_, ?_⟩
    · rw [transformRecords_cons, List.map_map]
      congr 2
      apply List.map_congr_left
      intro r _
      exact recordSpec_idem upper n r
    · intro i r r1 hi hr hr1 hlen
      obtain ⟨j, rfl⟩ : ∃ j, i = j + 1 := ⟨i - 1, by omega⟩
      simp only [List.getElem?_cons_succ] at hr hr1
      rw [getElem_map_recordSpec upper n data j r hr] at hr1
      injection hr1 with hr1
      subst hr1
      have hl := (recordSpec_length upper n r).2.2 (by omega)
      refine ⟨by omega, ?_⟩
      rw [goIndex_natCast, goIndex_natCast]
      exact recordSpec_frame upper n r n (by omega)

/-- Claim C10 at records `["h"]`, `["a"]`, `[]` and index `0`. -/
theorem transformRecords_idempotent_witness :
    ∃ out, transformRecords plainTable 0 [["h"], ["a"], []] = some out
      ∧ transformRecords plainTable 0 out = some out
      ∧ ∀ (i : Nat) (r r1 : List String), 1 ≤ i → [["h"], ["a"], []][i]? = some r →
          out[i]? = some r1 → (0 : Int) < (r.length : Int) →
          (0 : Int) + 2 ≤ (r1.length : Int) ∧ goIndex r1 0 = goIndex r 0 :=
  transformRecords_idempotent plainTable [["h"], ["a"], []] 0 (by decide) (by decide)
    (by decide)

/-! ## The spreadsheet handler -/

/-- Claim C4 fails as stated: with header `["id", "name"]` and target `"name"`
the matched index is `1`; the data row `["x"]` has one cell, which is not fewer
than `1`, and yet the row is skipped: the run succeeds without any cell
write. -/
theorem excel_skip_counterexample :
    findColumnIndex "name" 0 ["id", "name"] = 1
    ∧ ¬ (((["x"] : List String).length : Int) < 1)
    ∧ processExcelFile plainTable (sampleSheet [["id", "name"], ["x"]])
        "in.xlsx" "out.xlsx" "name" = ⟨none, [], true⟩ := by
  decide

/-- Claim C4 as amended: in `processExcelFile` with the column resolved to the
0-based index `c`, a data row (position `i ≥ 1`) whose cell count is at most
`c` (fewer than `c + 1` cells) is skipped: no cell is written for it and the
loop goes on with the next row as if the row were absent, so no error is
raised; when every data row is that short nothing is written and the run
reaches the save step.  As long as the cell name could be computed and the cell
written for every earlier data row holding the column, a data row gets no cell
write exactly when its cell count is at most `c` or its cell name cannot be
computed; a row with more than `c` cells whose cell name is computed has the
cell text at column `c` transformed and written, and one whose cell name cannot
be computed makes the handler return that error without saving. -/
theorem processExcelFile_skip_rule (upper : Char → Char) (lib : Excelize)
    (inputPath outputPath columnName sheet : String) (others header : List String)
    (data : List (List String)) (c : Nat) (hopen : lib.openFile inputPath = none)
    (hsheets : lib.sheetList = sheet :: others)
    (hrows : lib.getRows sheet = .ok (header :: data))
    (hcol : findColumnIndex columnName 0 header = (c : Int)) :
    (∀ (i : Nat) (row : List String), 1 ≤ i → (header :: data)[i]? = some row →
      row.length ≤ c →
      ∀ w ∈ (processExcelFile upper lib inputPath outputPath columnName).writes,
        w.row ≠ (i : Int) + 1)
    ∧ (∀ (i : Nat) (row : List String) (rest : List (List String)), row.length ≤ c →
        processRows upper lib sheet (c : Int) i (row :: rest)
          = processRows upper lib sheet (c : Int) (i + 1) rest)
    ∧ ((∀ row ∈ data, row.length ≤ c) →
        (processExcelFile upper lib inputPath outputPath columnName).writes = []
        ∧ (processExcelFile upper lib inputPath outputPath columnName).saveCalled = true
        ∧ ((processExcelFile upper lib inputPath outputPath columnName).err = none
          ∨ ∃ e, (processExcelFile upper lib inputPath outputPath columnName).err
              = some (.save e)))
    ∧ (∀ (i : Nat) (row : List String), 1 ≤ i → (header :: data)[i]? = some row →
        (∀ (j : Nat) (row1 : List String), 1 ≤ j → j < i →
          (header :: data)[j]? = some row1 → c < row1.length →
          ∃ cell1, lib.coordinatesToCellName ((c : Int) + 2) ((j : Int) + 1) = .ok cell1
            ∧ lib.setCellValue sheet cell1 (processString upper (row1.getD c "")) = none) →
        ((∀ w ∈ (processExcelFile upper lib inputPath outputPath columnName).writes,
            w.row ≠ (i : Int) + 1)
          ↔ (row.length ≤ c
            ∨ ∃ e, lib.coordinatesToCellName ((c : Int) + 2) ((i : Int) + 1) = .error e))
        ∧ (c < row.length → ∀ cell,
            lib.coordinatesToCellName ((c : Int) + 2) ((i : Int) + 1) = .ok cell →
            (⟨(c : Int) + 2, (i : Int) + 1, cell, processString upper (row.getD c "")⟩
              : CellWrite)
              ∈ (processExcelFile upper lib inputPath outputPath columnName).writes)
        ∧ (c < row.length → ∀ e,
            lib.coordinatesToCellName ((c : Int) + 2) ((i : Int) + 1) = .error e →
            (processExcelFile upper lib inputPath outputPath columnName).err
              = some (.cellAddress e)
            ∧ (processExcelFile upper lib inputPath outputPath columnName).saveCalled
              = false)) := by
  obtain ⟨hw, hsave, herr⟩ := processExcelFile_found upper lib inputPath outputPath columnName
    sheet others header data c hopen hsheets hrows hcol
  have hnowrite : ∀ (j : Nat) (ws : List CellWrite),
      ws.filter (fun w => decide (w.row = ((1 + j : Nat) : Int) + 1)) = [] →
      ∀ w ∈ ws, w.row ≠ ((1 + j : Nat) : Int) + 1 := by
    intro j ws hf w hmem hrowEq
    have : w ∈ ws.filter (fun w => decide (w.row = ((1 + j : Nat) : Int) + 1)) :=
      List.mem_filter.mpr ⟨hmem, by simpa using hrowEq⟩
    rw [hf] at this
    exact absurd this (List.not_mem_nil _)
  refine ⟨?_, ?_, ?_, ?_⟩
  · intro i row hi hrow hshort w hmem hrowEq
    rw [hw] at hmem
    obtain ⟨j, row2, hj, hlen, _, hr, _, _⟩ := processRows_sound upper lib sheet c data 1 w hmem
    have hij : i = 1 + j := by
      rw [hrowEq] at hr
      push_cast at hr
      omega
    subst hij
    have he : 1 + j = j + 1 := by omega
    rw [he, List.getElem?_cons_succ, hj] at hrow
    injection hrow with hrow
    subst hrow
    omega
  · intro i row rest hshort
    have h1 : (row.length : Int) ≤ (c : Int) := by omega
    rw [processRows, if_pos h1]
  · intro hall
    have hloop := processRows_short upper lib sheet c data 1 hall
    rw [hw, hsave, hloop]
    refine ⟨rfl, rfl, ?_⟩
    apply herr
    rw [hloop]
  · intro i row hi hrow hearlier
    obtain ⟨j, rfl⟩ : ∃ j, i = 1 + j := ⟨i - 1, by omega⟩
    have he : 1 + j = j + 1 := by omega
    have hrow1 : data[j]? = some row := by
      rw [he, List.getElem?_cons_succ] at hrow
      exact hrow
    have hearlier1 : ∀ (j1 : Nat) (row1 : List String), j1 < j → data[j1]? = some row1 →
        c < row1.length →
        ∃ cell1, lib.coordinatesToCellName ((c : Int) + 2) (((1 + j1 : Nat) : Int) + 1)
            = .ok cell1
          ∧ lib.setCellValue sheet cell1 (processString upper (row1.getD c "")) = none := by
      intro j1 row1 hj1 hr1 hl1
      have he1 : 1 + j1 = j1 + 1 := by omega
      rw [he1]
      exact hearlier (j1 + 1) row1 (by omega) (by omega) (by simpa using hr1) hl1
    obtain ⟨hat, hfail⟩ := processRows_at upper lib sheet c data 1 j row hrow1 hearlier1
    rw [hw]
    refine ⟨⟨?_, ?_⟩, ?_, ?_⟩
    · intro hnone
      by_contra hcon
      simp only [not_or, not_le, not_exists] at hcon
      obtain ⟨hlen, hok⟩ := hcon
      rw [if_neg (by omega)] at hat
      cases hco : lib.coordinatesToCellName ((c : Int) + 2) (((1 + j : Nat) : Int) + 1) with
      | error e => exact hok e hco
      | ok cell =>
        rw [hco] at hat
        have hmem : (⟨(c : Int) + 2, ((1 + j : Nat) : Int) + 1, cell,
            processString upper (row.getD c "")⟩ : CellWrite)
            ∈ (processRows upper lib sheet (c : Int) 1 data).1.filter
              (fun w => decide (w.row = ((1 + j : Nat) : Int) + 1)) := by
          rw [hat]; exact List.mem_singleton.mpr rfl
        exact hnone _ (List.mem_filter.mp hmem).1 rfl
    · intro hcase
      apply hnowrite j
      rcases hcase with hshort | ⟨e, hco⟩
      · rw [hat, if_pos hshort]
      · rw [hat, hco]
        by_cases hs : row.length ≤ c
        · rw [if_pos hs]
        · rw [if_neg hs]
    · intro hlen cell hco
      rw [if_neg (by omega), hco] at hat
      have hmem : (⟨(c : Int) + 2, ((1 + j : Nat) : Int) + 1, cell,
          processString upper (row.getD c "")⟩ : CellWrite)
          ∈ (processRows upper lib sheet (c : Int) 1 data).1.filter
            (fun w => decide (w.row = ((1 + j : Nat) : Int) + 1)) := by
        rw [hat]; exact List.mem_singleton.mpr rfl
      exact (List.mem_filter.mp hmem).1
    · intro hlen e hco
      exact processExcelFile_aborted upper lib inputPath outputPath columnName sheet others
        header data c hopen hsheets hrows hcol _ (hfail hlen e hco)

/-- Claim C4 as amended at header `["id", "name"]`, data rows `["0", "al"]`,
`["x"]`, `["1", "bob"]` and column name `"name"`: the row `["x"]` at position 2
gets no write, and the row `["1", "bob"]` at position 3 has `BOB_PROCESSED`
written in column 3 of row 4. -/
theorem processExcelFile_skip_rule_witness :
    (∀ w ∈ (processExcelFile plainTable
        (boundedSheet [["id", "name"], ["0", "al"], ["x"], ["1", "bob"]])
        "in.xlsx" "out.xlsx" "name").writes, w.row ≠ ((2 : Nat) : Int) + 1)
    ∧ (⟨((1 : Nat) : Int) + 2, ((3 : Nat) : Int) + 1, "3,4",
          processString plainTable (["1", "bob"].getD 1 "")⟩ : CellWrite)
        ∈ (processExcelFile plainTable
          (boundedSheet [["id", "name"], ["0", "al"], ["x"], ["1", "bob"]])
          "in.xlsx" "out.xlsx" "name").writes :=
  ⟨(processExcelFile_skip_rule plainTable
      (boundedSheet [["id", "name"], ["0", "al"], ["x"], ["1", "bob"]])
      "in.xlsx" "out.xlsx" "name" "Sheet1" [] ["id", "name"]
      [["0", "al"], ["x"], ["1", "bob"]] 1 rfl rfl rfl (by decide)).1
      2 ["x"] (by decide) rfl (by decide),
   ((processExcelFile_skip_rule plainTable
      (boundedSheet [["id", "name"], ["0", "al"], ["x"], ["1", "bob"]])
      "in.xlsx" "out.xlsx" "name" "Sheet1" [] ["id", "name"]
      [["0", "al"], ["x"], ["1", "bob"]] 1 rfl rfl rfl (by decide)).2.2.2
      3 ["1", "bob"] (by decide) rfl
      (by
        intro j row1 h1 h2 hr hl
        have hj : j = 1 ∨ j = 2 := by omega
        rcases hj with hj | hj
        · subst hj
          simp only [List.getElem?_cons_succ, List.getElem?_cons_zero, Option.some.injEq] at hr
          subst hr
          exact ⟨"3,2", rfl, rfl⟩
        · subst hj
          simp only [List.getElem?_cons_succ, List.getElem?_cons_zero, Option.some.injEq] at hr
          subst hr
          exact absurd hl (by decide))).2.1 (by decide) "3,4" rfl⟩

/-- Claim C5 fails as stated: with the column limit of `excelize`, a header of
16384 cells whose last cell is `"name"` resolves to index 16383; the data row
holds that column, yet the cell name of column 16385 cannot be computed, the
handler returns that error, and no cell write is issued for the row. -/
theorem excel_last_column_counterexample :
    findColumnIndex "name" 0 (List.replicate 16383 "" ++ ["name"]) = 16383
    ∧ 16383 < (List.replicate 16383 "" ++ ["bob"]).length
    ∧ processExcelFile plainTable
        (boundedSheet
          [List.replicate 16383 "" ++ ["name"], List.replicate 16383 "" ++ ["bob"]])
        "in.xlsx" "out.xlsx" "name"
      = ⟨some (.cellAddress "invalid cell reference"), [], false⟩ := by
  have hcol : findColumnIndex "name" 0 (List.replicate 16383 "" ++ ["name"])
      = ((0 + 16383 : Nat) : Int) :=
    findColumnIndex_replicate "name" "" (by decide) 16383 0
  refine ⟨by rw [hcol]; rfl, by rw [length_replicate_append_one]; omega, ?_⟩
  rw [processExcelFile_loaded plainTable _ "in.xlsx" "out.xlsx" "name" "Sheet1" []
    (List.replicate 16383 "" ++ ["name"]) [List.replicate 16383 "" ++ ["bob"]] rfl rfl rfl]
  rw [hcol]
  have hne : ¬ (((0 + 16383 : Nat) : Int) = -1) := by omega
  rw [if_neg hne]
  have hrow : processRows plainTable
      (boundedSheet [List.replicate 16383 "" ++ ["name"], List.replicate 16383 "" ++ ["bob"]])
      "Sheet1" ((0 + 16383 : Nat) : Int) 1 [List.replicate 16383 "" ++ ["bob"]]
      = ([], some (.cellAddress "invalid cell reference")) := by
    unfold processRows
    have hlen : ¬ (((List.replicate 16383 "" ++ ["bob"]).length : Int)
        ≤ ((0 + 16383 : Nat) : Int)) := by
      rw [length_replicate_append_one]
      omega
    rw [if_neg hlen, goIndex_natCast]
    have hget : (List.replicate 16383 "" ++ ["bob"])[0 + 16383]? = some "bob" := by
      rw [Nat.zero_add]
      exact getElem_replicate_append_one 16383 "" "bob"
    rw [hget]
    rfl
  rw [hrow]

/-- Claim C5 as amended: in `processExcelFile` with the column resolved to the
0-based index `c`, no cell of the header row (row 1) is ever written; every
cell write issued belongs to a data row at 0-based position `i ≥ 1` that holds
the matched column, is at the 1-based coordinates (column `c + 2`, row `i + 1`)
and carries `processString rows[i][c]`; no row is written twice; and every data
row at position `i ≥ 1` that holds the matched column gets exactly one cell
write, at those coordinates and with that value, provided the cell name could
be computed and the cell written for every earlier data row holding the column
and the cell name can be computed for row `i`.  Example: with header
`["id", "name", "status"]` and target `"name"` every write is in column `3`. -/
theorem processExcelFile_cell_writes (upper : Char → Char) (lib : Excelize)
    (inputPath outputPath columnName sheet : String) (others header : List String)
    (data : List (List String)) (c : Nat) (hopen : lib.openFile inputPath = none)
    (hsheets : lib.sheetList = sheet :: others)
    (hrows : lib.getRows sheet = .ok (header :: data))
    (hcol : findColumnIndex columnName 0 header = (c : Int)) :
    (∀ w ∈ (processExcelFile upper lib inputPath outputPath columnName).writes, w.row ≠ 1)
    ∧ (∀ w ∈ (processExcelFile upper lib inputPath outputPath columnName).writes,
        ∃ (i : Nat) (row : List String), 1 ≤ i ∧ (header :: data)[i]? = some row
          ∧ c < row.length ∧ w.col = (c : Int) + 2 ∧ w.row = (i : Int) + 1
          ∧ w.value = processString upper (row.getD c "")
          ∧ lib.coordinatesToCellName ((c : Int) + 2) ((i : Int) + 1) = .ok w.cell)
    ∧ (processExcelFile upper lib inputPath outputPath columnName).writes.Pairwise
        (fun a b => a.row < b.row)
    ∧ (∀ (i : Nat) (row : List String) (cell : String), 1 ≤ i →
        (header :: data)[i]? = some row → c < row.length →
        (∀ (j : Nat) (row1 : List String), 1 ≤ j → j < i →
          (header :: data)[j]? = some row1 → c < row1.length →
          ∃ cell1, lib.coordinatesToCellName ((c : Int) + 2) ((j : Int) + 1) = .ok cell1
            ∧ lib.setCellValue sheet cell1 (processString upper (row1.getD c "")) = none) →
        lib.coordinatesToCellName ((c : Int) + 2) ((i : Int) + 1) = .ok cell →
        (processExcelFile upper lib inputPath outputPath columnName).writes.filter
            (fun w => decide (w.row = (i : Int) + 1))
          = [⟨(c : Int) + 2, (i : Int) + 1, cell, processString upper (row.getD c "")⟩])
    ∧ (header = ["id", "name", "status"] → columnName = "name" →
        ∀ w ∈ (processExcelFile upper lib inputPath outputPath columnName).writes,
          w.col = 3) := by
  obtain ⟨hw, _, _⟩ := processExcelFile_found upper lib inputPath outputPath columnName
    sheet others header data c hopen hsheets hrows hcol
  rw [hw]
  refine ⟨?_, ?_, processRows_increasing upper lib sheet (c : Int) data 1, ?_, ?_⟩
  · intro w hmem
    have := (processRows_writes upper lib sheet (c : Int) data 1 w hmem).2
    push_cast at this
    omega
  · intro w hmem
    obtain ⟨j, row, hj, hlen, hc, hr, hv, hco⟩ :=
      processRows_sound upper lib sheet c data 1 w hmem
    have he : 1 + j = j + 1 := by omega
    rw [he] at hr hco
    exact ⟨j + 1, row, by omega, by simpa using hj, hlen, hc, hr, hv, hco⟩
  · intro i row cell hi hrow hlen hearlier hcoord
    obtain ⟨j, rfl⟩ : ∃ j, i = 1 + j := ⟨i - 1, by omega⟩
    have he : 1 + j = j + 1 := by omega
    have hrow1 : data[j]? = some row := by
      rw [he, List.getElem?_cons_succ] at hrow
      exact hrow
    have hearlier1 : ∀ (j1 : Nat) (row1 : List String), j1 < j → data[j1]? = some row1 →
        c < row1.length →
        ∃ cell1, lib.coordinatesToCellName ((c : Int) + 2) (((1 + j1 : Nat) : Int) + 1)
            = .ok cell1
          ∧ lib.setCellValue sheet cell1 (processString upper (row1.getD c "")) = none := by
      intro j1 row1 hj1 hr1 hl1
      have he1 : 1 + j1 = j1 + 1 := by omega
      rw [he1]
      exact hearlier (j1 + 1) row1 (by omega) (by omega) (by simpa using hr1) hl1
    have hat := (processRows_at upper lib sheet c data 1 j row hrow1 hearlier1).1
    have hnle : ¬ row.length ≤ c := by omega
    rw [if_neg hnle, hcoord] at hat
    exact hat
  · intro hh hn w hmem
    subst hh hn
    have h1 : findColumnIndex "name" 0 ["id", "name", "status"] = 1 := by decide
    have hc : (c : Int) = 1 := by rw [← hcol, h1]
    have := (processRows_writes upper lib sheet (c : Int) data 1 w hmem).1
    rw [this, hc]
    rfl

/-- Claim C5 as amended at header `["id", "name", "status"]`, data rows
`["1", "bob"]`, `["2"]`, `["3", "eve"]` and column name `"name"`: the row at
position 3 gets exactly one write, in column 3 and row 4. -/
theorem processExcelFile_cell_writes_witness :
    (processExcelFile plainTable
        (boundedSheet [["id", "name", "status"], ["1", "bob"], ["2"], ["3", "eve"]])
        "in.xlsx" "out.xlsx" "name").writes.filter
        (fun w => decide (w.row = ((3 : Nat) : Int) + 1))
      = [⟨((1 : Nat) : Int) + 2, ((3 : Nat) : Int) + 1, "3,4",
          processString plainTable (["3", "eve"].getD 1 "")⟩] :=
  (processExcelFile_cell_writes plainTable
    (boundedSheet [["id", "name", "status"], ["1", "bob"], ["2"], ["3", "eve"]])
    "in.xlsx" "out.xlsx" "name" "Sheet1" [] ["id", "name", "status"]
    [["1", "bob"], ["2"], ["3", "eve"]] 1 rfl rfl rfl (by decide)).2.2.2.1
    3 ["3", "eve"] "3,4" (by decide) rfl (by decide)
    (by
      intro j row1 h1 h2 hr hl
      have hj : j = 1 ∨ j = 2 := by omega
      rcases hj with hj | hj
      · subst hj
        simp only [List.getElem?_cons_succ, List.getElem?_cons_zero, Option.some.injEq] at hr
        subst hr
        exact ⟨"3,2", rfl, rfl⟩
      · subst hj
        simp only [List.getElem?_cons_succ, List.getElem?_cons_zero, Option.some.injEq] at hr
        subst hr
        exact absurd hl (by decide))
    rfl

/-- Claim C6: in `processExcelFile`, once a sheet with at least one row is
loaded, the resolved column index is the smallest position of the header row
whose cell equals the column name; the handler fails with "column ... not
found" if and only if no header cell equals the name; and in that case no cell
is written and `SaveAs` is not called. -/
theorem processExcelFile_column_resolution (upper : Char → Char) (lib : Excelize)
    (inputPath outputPath columnName sheet : String) (others header : List String)
    (data : List (List String)) (hopen : lib.openFile inputPath = none)
    (hsheets : lib.sheetList = sheet :: others)
    (hrows : lib.getRows sheet = .ok (header :: data)) :
    (columnName ∈ header →
      ∃ c : Nat, findColumnIndex columnName 0 header = (c : Int)
        ∧ header[c]? = some columnName
        ∧ ∀ j : Nat, j < c → header[j]? ≠ some columnName)
    ∧ ((processExcelFile upper lib inputPath outputPath columnName).err
          = some (.columnNotFound columnName)
        ↔ columnName ∉ header)
    ∧ (columnName ∉ header →
        (processExcelFile upper lib inputPath outputPath columnName).writes = []
        ∧ (processExcelFile upper lib inputPath outputPath columnName).saveCalled = false) := by
  have hload := processExcelFile_loaded upper lib inputPath outputPath columnName sheet others
    header data hopen hsheets hrows
  have hfound : columnName ∈ header →
      ∃ c : Nat, findColumnIndex columnName 0 header = (c : Int)
        ∧ header[c]? = some columnName
        ∧ ∀ j : Nat, j < c → header[j]? ≠ some columnName := by
    intro hmem
    rcases findColumnIndex_spec columnName header 0 with ⟨hnot, _⟩ | ⟨j, hres, hj, hmin⟩
    · exact absurd hmem hnot
    · exact ⟨j, by simpa using hres, hj, hmin⟩
  have hmissing : columnName ∉ header → findColumnIndex columnName 0 header = -1 := by
    intro hnot
    rcases findColumnIndex_spec columnName header 0 with ⟨_, hres⟩ | ⟨j, _, hj, _⟩
    · exact hres
    · exact absurd (List.getElem?_mem hj) hnot
  refine ⟨hfound, ⟨?_, ?_⟩, ?_⟩
  · intro herr hmem
    obtain ⟨c, hc, _, _⟩ := hfound hmem
    have hne : ¬ ((c : Int) = -1) := by omega
    rw [hload, hc, if_neg hne] at herr
    have hloop := processRows_err upper lib sheet (c : Int) data 1 columnName
    cases hr : (processRows upper lib sheet (c : Int) 1 data).2 with
    | some e =>
      rw [hr] at hloop
      simp only [hr] at herr
      exact hloop herr
    | none =>
      simp only [hr] at herr
      cases hsv : lib.saveAs outputPath with
      | some e => simp [hsv] at herr
      | none => simp [hsv] at herr
  · intro hnot
    rw [hload, if_pos (hmissing hnot)]
  · intro hnot
    rw [hload, if_pos (hmissing hnot)]
    exact ⟨rfl, rfl⟩

/-- Claim C6 at header `["id", "name", "name"]` and column name `"name"`. -/
theorem processExcelFile_column_resolution_witness :
    ("name" ∈ ["id", "name", "name"] →
      ∃ c : Nat, findColumnIndex "name" 0 ["id", "name", "name"] = (c : Int)
        ∧ ["id", "name", "name"][c]? = some "name"
        ∧ ∀ j : Nat, j < c → ["id", "name", "name"][j]? ≠ some "name")
    ∧ ((processExcelFile plainTable (sampleSheet [["id", "name", "name"], ["1", "bob"]])
          "in.xlsx" "out.xlsx" "name").err = some (.columnNotFound "name")
        ↔ "name" ∉ ["id", "name", "name"])
    ∧ ("name" ∉ ["id", "name", "name"] →
        (processExcelFile plainTable (sampleSheet [["id", "name", "name"], ["1", "bob"]])
          "in.xlsx" "out.xlsx" "name").writes = []
        ∧ (processExcelFile plainTable (sampleSheet [["id", "name", "name"], ["1", "bob"]])
          "in.xlsx" "out.xlsx" "name").saveCalled = false) :=
  processExcelFile_column_resolution plainTable
    (sampleSheet [["id", "name", "name"], ["1", "bob"]]) "in.xlsx" "out.xlsx" "name"
    "Sheet1" [] ["id", "name", "name"] [["1", "bob"]] rfl rfl rfl

/-! ## The format dispatch -/

/-- Claim C8 fails as stated: the input path `data.CSV` has an extension equal
to `.csv` up to letter case, but with the column value `abc`, which does not
scan as an integer, `main` reports the column error and calls no handler. -/
theorem main_csv_column_counterexample :
    stringsToLower (sampleWorld [["id"], ["a"]]).lower
        (filepathExt (sampleWorld [["id"], ["a"]]).isPathSeparator "data.CSV") = ".csv"
    ∧ main (sampleWorld [["id"], ["a"]]) "data.CSV" "out.csv" "abc"
      = .csvColumnNotNumeric "expected integer" := by
  decide

/-- Claim C8 as amended: when the three flags are present, `main` chooses its
branch from the lower-cased extension of the input path alone: extension
`.xlsx` calls `processExcelFile` on the unchanged arguments; extension `.csv`
takes the delimited-text branch, which calls `processCSVFile` with the scanned
index when the column scans as an integer and otherwise reports the column
error with no handler called; any other extension ends in "Unsupported file
format" with no handler called.  An extension equal to `.xlsx` or `.csv` in any
letter case lower-cases to it, and every path ending in `.txt` is
unsupported. -/
theorem main_dispatch (w : World) (inputFile outputFile column : String)
    (hin : inputFile ≠ "") (hout : outputFile ≠ "") (hcol : column ≠ "") :
    (stringsToLower w.lower (filepathExt w.isPathSeparator inputFile) = ".xlsx" →
      main w inputFile outputFile column
        = .excel (processExcelFile w.upper w.excel inputFile outputFile column))
    ∧ (stringsToLower w.lower (filepathExt w.isPathSeparator inputFile) = ".csv" →
      main w inputFile outputFile column
        = match w.scanInt column with
          | .error e => .csvColumnNotNumeric e
          | .ok columnIndex =>
            .csv (processCSVFile w.upper w.files inputFile outputFile columnIndex))
    ∧ (stringsToLower w.lower (filepathExt w.isPathSeparator inputFile) ≠ ".xlsx" →
      stringsToLower w.lower (filepathExt w.isPathSeparator inputFile) ≠ ".csv" →
      main w inputFile outputFile column
        = .unsupported (stringsToLower w.lower (filepathExt w.isPathSeparator inputFile)))
    ∧ (equalAnyCase (filepathExt w.isPathSeparator inputFile) ".xlsx" →
      stringsToLower w.lower (filepathExt w.isPathSeparator inputFile) = ".xlsx")
    ∧ (equalAnyCase (filepathExt w.isPathSeparator inputFile) ".csv" →
      stringsToLower w.lower (filepathExt w.isPathSeparator inputFile) = ".csv")
    ∧ (∀ stem : String, ∃ ext : String,
      main w (stem ++ ".txt") outputFile column = .unsupported ext) := by
  have hflags : ¬ (inputFile = "" ∨ outputFile = "" ∨ column = "") := by
    simp [hin, hout, hcol]
  refine ⟨?_, ?_, ?_, ?_, ?_, ?_⟩
  · intro h
    unfold main
    simp only [if_neg hflags, h, if_true]
  · intro h
    have hne : ¬ ((".csv" : String) = ".xlsx") := by decide
    unfold main
    simp only [if_neg hflags, h, if_neg hne, if_true]
  · intro h1 h2
    unfold main
    simp only [if_neg hflags, if_neg h1, if_neg h2]
  · exact stringsToLower_of_equalAnyCase w.lower _ ".xlsx" (by decide)
  · exact stringsToLower_of_equalAnyCase w.lower _ ".csv" (by decide)
  · intro stem
    have hstem : ¬ (stem ++ ".txt" = "") := by
      intro h
      have := congrArg String.length h
      rw [String.length_append] at this
      have h4 : (".txt" : String).length = 4 := by decide
      have h0 : ("" : String).length = 0 := by decide
      omega
    have hflags1 : ¬ (stem ++ ".txt" = "" ∨ outputFile = "" ∨ column = "") := by
      simp [hstem, hout, hcol]
    unfold main
    rw [if_neg hflags1]
    rcases filepathExt_txt w.isPathSeparator stem with h | h
    · have h1 : stringsToLower w.lower "" = "" := rfl
      have h2 : ¬ (("" : String) = ".xlsx") := by decide
      have h3 : ¬ (("" : String) = ".csv") := by decide
      simp only [h, h1, if_neg h2, if_neg h3]
      exact ⟨_, rfl⟩
    · have h1 : stringsToLower w.lower ".txt" = ".txt" := rfl
      have h2 : ¬ ((".txt" : String) = ".xlsx") := by decide
      have h3 : ¬ ((".txt" : String) = ".csv") := by decide
      simp only [h, h1, if_neg h2, if_neg h3]
      exact ⟨_, rfl⟩

/-- Claim C8 at input path `data/Report.XLSX`. -/
theorem main_dispatch_witness :
    (stringsToLower (sampleWorld [["id"], ["a"]]).lower
        (filepathExt (sampleWorld [["id"], ["a"]]).isPathSeparator "data/Report.XLSX")
        = ".xlsx" →
      main (sampleWorld [["id"], ["a"]]) "data/Report.XLSX" "out.xlsx" "id"
        = .excel (processExcelFile (sampleWorld [["id"], ["a"]]).upper
            (sampleWorld [["id"], ["a"]]).excel "data/Report.XLSX" "out.xlsx" "id"))
    ∧ (stringsToLower (sampleWorld [["id"], ["a"]]).lower
        (filepathExt (sampleWorld [["id"], ["a"]]).isPathSeparator "data/Report.XLSX")
        = ".csv" →
      main (sampleWorld [["id"], ["a"]]) "data/Report.XLSX" "out.xlsx" "id"
        = match (sampleWorld [["id"], ["a"]]).scanInt "id" with
          | .error e => .csvColumnNotNumeric e
          | .ok columnIndex =>
            .csv (processCSVFile (sampleWorld [["id"], ["a"]]).upper
              (sampleWorld [["id"], ["a"]]).files "data/Report.XLSX" "out.xlsx" columnIndex))
    ∧ (stringsToLower (sampleWorld [["id"], ["a"]]).lower
        (filepathExt (sampleWorld [["id"], ["a"]]).isPathSeparator "data/Report.XLSX")
        ≠ ".xlsx" →
      stringsToLower (sampleWorld [["id"], ["a"]]).lower
        (filepathExt (sampleWorld [["id"], ["a"]]).isPathSeparator "data/Report.XLSX")
        ≠ ".csv" →
      main (sampleWorld [["id"], ["a"]]) "data/Report.XLSX" "out.xlsx" "id"
        = .unsupported (stringsToLower (sampleWorld [["id"], ["a"]]).lower
            (filepathExt (sampleWorld [["id"], ["a"]]).isPathSeparator "data/Report.XLSX")))
    ∧ (equalAnyCase
        (filepathExt (sampleWorld [["id"], ["a"]]).isPathSeparator "data/Report.XLSX")
        ".xlsx" →
      stringsToLower (sampleWorld [["id"], ["a"]]).lower
        (filepathExt (sampleWorld [["id"], ["a"]]).isPathSeparator "data/Report.XLSX")
        = ".xlsx")
    ∧ (equalAnyCase
        (filepathExt (sampleWorld [["id"], ["a"]]).isPathSeparator "data/Report.XLSX")
        ".csv" →
      stringsToLower (sampleWorld [["id"], ["a"]]).lower
        (filepathExt (sampleWorld [["id"], ["a"]]).isPathSeparator "data/Report.XLSX")
        = ".csv")
    ∧ (∀ stem : String, ∃ ext : String,
      main (sampleWorld [["id"], ["a"]]) (stem ++ ".txt") "out.xlsx" "id"
        = .unsupported ext) :=
  main_dispatch (sampleWorld [["id"], ["a"]]) "data/Report.XLSX" "out.xlsx" "id"
    (by decide) (by decide) (by decide)

end ExcelProcessor
